/-
Verification of the rencfs encrypted-filesystem specification.

The repository's `src/lib.rs` exposes the crate surface: `is_debug`,
`log_init`, `run_fuse`, and the keyring helpers `save_to_keyring`,
`get_from_keyring`, `delete_from_keyring`.  The engine itself (the
`encryptedfs` module: `EncryptedFs::new/create_nod/write_all/read/...`)
is referenced by the module documentation but its source is not part of
the excerpt, so the engine is modelled here from the specification
(spec.md), definition by definition; each such definition carries a
doc comment starting with `Modelled from the spec:`.

Machine integers (u64 inode numbers, file handles, byte values) are
modelled as `Nat`; byte sequences as `List Nat`; secrets and names as
`String`.
-/
import Mathlib

set_option linter.unusedVariables false

namespace Rencfs

/-! ## Association lists

Small executable finite maps used throughout the model: `inodes/` is a
map from inode number to attributes, `contents/` from inode number to
bytes, a directory is a map-like list of entries, the OS keyring is a
map from (service, user) to secret. -/

/-- Look up the first binding of key `k` in an association list. -/
def lookupA {κ : Type} {α : Type} [DecidableEq κ] (k : κ) : List (κ × α) → Option α
  | [] => none
  | (k', v) :: rest => if k' = k then some v else lookupA k rest

/-- Remove every binding of key `k`. -/
def eraseA {κ : Type} {α : Type} [DecidableEq κ] (k : κ) : List (κ × α) → List (κ × α)
  | [] => []
  | (k', v) :: rest => if k' = k then eraseA k rest else (k', v) :: eraseA k rest

/-- Insert (or overwrite) the binding of key `k`. -/
def insertA {κ : Type} {α : Type} [DecidableEq κ] (k : κ) (v : α) (l : List (κ × α)) :
    List (κ × α) :=
  (k, v) :: eraseA k l

theorem lookupA_insertA_self {κ α : Type} [DecidableEq κ] (k : κ) (v : α)
    (l : List (κ × α)) : lookupA k (insertA k v l) = some v := by
  simp [insertA, lookupA]

theorem lookupA_eraseA_self {κ α : Type} [DecidableEq κ] (k : κ) (l : List (κ × α)) :
    lookupA k (eraseA k l) = none := by
  induction l with
  | nil => simp [eraseA, lookupA]
  | cons p rest ih =>
    obtain ⟨k', v⟩ := p
    by_cases h : k' = k
    · simpa [eraseA, h] using ih
    · simpa [eraseA, lookupA, h] using ih

theorem lookupA_eraseA_ne {κ α : Type} [DecidableEq κ] {k j : κ} (l : List (κ × α))
    (h : j ≠ k) : lookupA j (eraseA k l) = lookupA j l := by
  induction l with
  | nil => rfl
  | cons p rest ih =>
    obtain ⟨k', v⟩ := p
    by_cases hk : k' = k
    · subst hk
      simp [eraseA, lookupA, Ne.symm h, ih]
    · by_cases hj : k' = j
      · simp [eraseA, lookupA, hk, hj, h]
      · simp [eraseA, lookupA, hk, hj, ih]

theorem lookupA_insertA_ne {κ α : Type} [DecidableEq κ] {k j : κ} (v : α)
    (l : List (κ × α)) (h : j ≠ k) : lookupA j (insertA k v l) = lookupA j l := by
  simp [insertA, lookupA, Ne.symm h, lookupA_eraseA_ne l h]

theorem mem_eraseA {κ α : Type} [DecidableEq κ] {k : κ} {p : κ × α} {l : List (κ × α)}
    (h : p ∈ eraseA k l) : p ∈ l := by
  induction l with
  | nil => simp [eraseA] at h
  | cons q rest ih =>
    obtain ⟨k', v⟩ := q
    by_cases hk : k' = k
    · simp only [eraseA, if_pos hk] at h
      exact List.mem_cons_of_mem _ (ih h)
    · simp only [eraseA, if_neg hk, List.mem_cons] at h
      rcases h with h | h
      · exact h ▸ List.mem_cons_self _ _
      · exact List.mem_cons_of_mem _ (ih h)

theorem mem_insertA {κ α : Type} [DecidableEq κ] {k : κ} {v : α} {p : κ × α}
    {l : List (κ × α)} (h : p ∈ insertA k v l) : p = (k, v) ∨ p ∈ l := by
  simp only [insertA, List.mem_cons] at h
  rcases h with h | h
  · exact Or.inl h
  · exact Or.inr (mem_eraseA h)

/-! ## Keyring helpers (embedded from `src/lib.rs`, lines 252–268)

The host OS keyring is modelled as a map from `(service, user)` pairs to
stored secrets.  `Entry::new(service, user)` plus
`set_password`/`get_password`/`delete_password` become pure operations on
that map. -/

/-- `const KEYRING_SERVICE: &'static str = "rencfs";` -/
def KEYRING_SERVICE : String := "rencfs"

/-- `const KEYRING_USER: &'static str = "encrypted_fs";` -/
def KEYRING_USER : String := "encrypted_fs"

/-- The host keyring: a finite map from (service, user) to secret. -/
abbrev Keyring := List ((String × String) × String)

/-- The `(service, user)` pair all three helpers build via
`Entry::new(KEYRING_SERVICE, &format!("{KEYRING_USER}.{suffix}"))`. -/
def keyringEntry (suffix : String) : String × String :=
  (KEYRING_SERVICE, KEYRING_USER ++ "." ++ suffix)

/-- `save_to_keyring(password, suffix)`: sets the entry's password. -/
def save_to_keyring (kr : Keyring) (password : String) (suffix : String) : Keyring :=
  insertA (keyringEntry suffix) password kr

/-- `get_from_keyring(suffix)`: reads the entry's password. -/
def get_from_keyring (kr : Keyring) (suffix : String) : Option String :=
  lookupA (keyringEntry suffix) kr

/-- `delete_from_keyring(suffix)`: deletes the entry. -/
def delete_from_keyring (kr : Keyring) (suffix : String) : Keyring :=
  eraseA (keyringEntry suffix) kr

/-! ## `is_debug` (embedded from `src/lib.rs`, lines 195–201)

```
pub fn is_debug() -> bool {
    #[cfg(debug_assertions)] {
        return true;
    }
    return false;
}
```

The `cfg` is a build-configuration constant, modelled as the boolean
argument `debug_assertions`; with it set the first `return true` is
compiled in and taken, otherwise only `return false` remains. -/
def is_debug (debug_assertions : Bool) : Bool :=
  if debug_assertions then true else false

/-! ## Error taxonomy (spec §7) -/

/-- Modelled from the spec: the error kinds surfaced by the core (§7);
the `encryptedfs` module defining `FsError` is not part of the source
excerpt.  `Io(inner)` carries its inner error as a code. -/
inductive FsError where
  | InvalidPassword
  | InvalidDataDirStructure
  | Corrupted
  | NotFound
  | AlreadyExists
  | NotEmpty
  | NotADirectory
  | IsADirectory
  | PermissionDenied
  | InvalidInput
  | IoError (code : Nat)
  | Other
  deriving DecidableEq, Repr

/-! ## Cipher Suite (spec §4.1) and tamper detection

Every on-disk artifact is an authenticated record.  The record is
modelled at the bit level so that the spec's "flipping any single bit"
is stated literally. -/

/-- Modelled from the spec: the authentication tag of a sealed record.
The cipher suite's real tag is a MAC over the ciphertext; the model
idealises it (per spec §8 invariant 6, which asserts detection of every
single-bit flip outright) as a parity bit, which provably changes under
any single bit flip. -/
def tagBit (body : List Bool) : Bool :=
  body.foldr xor false

/-- Modelled from the spec: `seal(key, nonce, ad, plaintext) → ciphertext`
"with a fixed authentication tag appended" (§4.1).  Key-stream mixing is
identity in the model (it is a bijection on bits and irrelevant to the
authentication property); the tag is appended to the body. -/
def sealRec (body : List Bool) : List Bool :=
  body ++ [tagBit body]

/-- Modelled from the spec: `open(key, nonce, ad, ciphertext) → plaintext
| AuthFailure` (§4.1); an authentication-tag mismatch surfaces as
`Corrupted` (§7) and delivers no plaintext. -/
def openSealed (c : List Bool) : Except FsError (List Bool) :=
  match c.reverse with
  | [] => .error .Corrupted
  | t :: rb =>
    let body := rb.reverse
    if t = tagBit body then .ok body else .error .Corrupted

/-- Flip the single bit at position `i` (identity past the end). -/
def flipBit : List Bool → Nat → List Bool
  | [], _ => []
  | b :: rest, 0 => (!b) :: rest
  | b :: rest, n + 1 => b :: flipBit rest n

/-- Modelled from the spec: the on-disk data directory as a map from
path (e.g. `"inodes/2"`, `"contents/2"`, `"key"`) to the sealed record
stored in that file (§3 on-disk layout). -/
abbrev EncStore := List (String × List Bool)

/-- Modelled from the spec: the decryption step of "the next operation
that touches" a file — it opens the file's sealed record and fails with
`Corrupted` on tag mismatch, delivering no plaintext (§4.4, §4.6, §7). -/
def readEnc (store : EncStore) (path : String) : Except FsError (List Bool) :=
  match lookupA path store with
  | none => .error .NotFound
  | some c => openSealed c

/-- Flip one bit of the file at `path` inside the data directory. -/
def tamperStore (store : EncStore) (path : String) (i : Nat) : EncStore :=
  match lookupA path store with
  | none => store
  | some c => insertA path (flipBit c i) store

theorem flipBit_append_left (l₁ l₂ : List Bool) (i : Nat) (hi : i < l₁.length) :
    flipBit (l₁ ++ l₂) i = flipBit l₁ i ++ l₂ := by
  induction l₁ generalizing i with
  | nil => simp at hi
  | cons b rest ih =>
    cases i with
    | zero => simp [flipBit]
    | succ j => simp [flipBit, ih j (by simpa using hi)]

theorem flipBit_append_length (l₁ : List Bool) (b : Bool) :
    flipBit (l₁ ++ [b]) l₁.length = l₁ ++ [!b] := by
  induction l₁ with
  | nil => simp [flipBit]
  | cons c rest ih => simp [flipBit, ih]

theorem tagBit_flipBit (body : List Bool) (i : Nat) (hi : i < body.length) :
    tagBit (flipBit body i) = !(tagBit body) := by
  induction body generalizing i with
  | nil => simp at hi
  | cons b rest ih =>
    cases i with
    | zero =>
      simp only [flipBit, tagBit, List.foldr_cons]
      cases b <;> cases rest.foldr xor false <;> rfl
    | succ j =>
      have ihj := ih j (by simpa using hi)
      simp only [flipBit, tagBit, List.foldr_cons] at ihj ⊢
      rw [ihj]
      cases b <;> cases rest.foldr xor false <;> rfl

theorem openSealed_sealRec (body : List Bool) : openSealed (sealRec body) = .ok body := by
  simp [openSealed, sealRec, List.reverse_append]

theorem sealRec_length (body : List Bool) : (sealRec body).length = body.length + 1 := by
  simp [sealRec]

/-- A flip inside the body part breaks authentication. -/
theorem openSealed_flip_body (body : List Bool) (i : Nat) (hi : i < body.length) :
    openSealed (flipBit (sealRec body) i) = .error .Corrupted := by
  have hsplit : flipBit (sealRec body) i = flipBit body i ++ [tagBit body] :=
    flipBit_append_left body [tagBit body] i hi
  rw [hsplit]
  simp [openSealed, List.reverse_append, tagBit_flipBit body i hi]

/-- A flip of the tag bit itself breaks authentication. -/
theorem openSealed_flip_tag (body : List Bool) :
    openSealed (flipBit (sealRec body) body.length) = .error .Corrupted := by
  have hsplit : flipBit (sealRec body) body.length = body ++ [!(tagBit body)] :=
    flipBit_append_length body (tagBit body)
  rw [hsplit]
  simp [openSealed, List.reverse_append]

/-! ## Key Store (spec §4.2)

The `key` file holds the master key sealed under a KEK derived from the
password and a persistent random salt.  Invariant 3 of the spec makes
the sealed record an ideal one: "the master key ciphertext decrypts
successfully if and only if the supplied password is correct", so the
KDF is modelled as the injective pairing of password and salt and the
sealed master key opens exactly under the sealing KEK. -/

/-- Modelled from the spec: `KEK = KDF(password, salt)` (§4.2).  The
memory-hard KDF is idealised as the injective pair of its inputs, which
realises spec invariant 3 (decryption succeeds iff the password is
correct). -/
def kdf (password : String) (salt : Nat) : String × Nat :=
  (password, salt)

/-- Modelled from the spec: the `key` file — "ciphertext of master key,
plus KDF salt and parameters" (§3).  `kek` records under which KEK the
master key is sealed; opening succeeds exactly when the KEK derived
from the supplied password equals it. -/
structure KeyFile where
  salt : Nat
  kek : String × Nat
  masterKey : Nat
  deriving DecidableEq, Repr

/-- Modelled from the spec: the data directory as seen by the key
store: the `key` file (`none` when missing or structurally corrupt)
plus all other files (`inodes/*`, `contents/*`) as raw ciphertext
bytes. -/
structure DataDir where
  keyFile : Option KeyFile
  files : List (String × List Nat)
  deriving DecidableEq, Repr

/-- Modelled from the spec: `init(data_dir, password, cipher)` as far as
key management decides it (§4.2, §6): read `key`, run the KDF, attempt
to open the sealed master key; missing/corrupt `key` is
`InvalidDataDirStructure`, an authentication failure is
`InvalidPassword`, success returns the master key. -/
def init (d : DataDir) (password : String) : Except FsError Nat :=
  match d.keyFile with
  | none => .error .InvalidDataDirStructure
  | some kf =>
    if kdf password kf.salt = kf.kek then .ok kf.masterKey
    else .error .InvalidPassword

/-- Modelled from the spec: `change_password(data_dir, old, new, cipher)`
"reads `key`, validates `old`, re-seals the *same* master key under a
new KEK derived from `new` with a fresh salt, and atomically replaces
`key`" (§4.2).  `freshSalt` is the fresh random salt.  The atomic
write-to-temp + rename is a single state update in the model. -/
def change_password (d : DataDir) (old new : String) (freshSalt : Nat) :
    Except FsError DataDir :=
  match d.keyFile with
  | none => .error .InvalidDataDirStructure
  | some kf =>
    if kdf old kf.salt = kf.kek then
      .ok { d with
            keyFile := some { salt := freshSalt
                              kek := kdf new freshSalt
                              masterKey := kf.masterKey } }
    else .error .InvalidPassword

/-! ## Filesystem engine state (spec §3, §4.4–§4.8)

The engine is modelled over decrypted views: the cipher layer (above)
is a bijection between these views and the on-disk sealed records, so
the POSIX-level claims are stated on the plaintext state.

- `attrs`    : the `inodes/<ino>` store (inode number → `FileAttr`);
- `contents` : the `contents/<ino>` stream of each regular file, as
               plaintext bytes;
- `dirs`     : the `contents/<ino>` folder of each directory, as a list
               of decrypted entries;
- `handles`  : the handle table (§4.7);
- `nextIno`, `nextFh` : monotone allocators (§3: identifiers are
  allocated monotonically and not reused).

Timestamps are carried as opaque numbers (the model has no clock and no
claim constrains them). -/

/-- Modelled from the spec: `kind ∈ {RegularFile, Directory, Symlink}` (§3). -/
inductive FileType where
  | RegularFile
  | Directory
  | Symlink
  deriving DecidableEq, Repr

/-- Modelled from the spec: the per-inode `FileAttr` record (§3). -/
structure FileAttr where
  ino : Nat
  size : Nat
  blocks : Nat
  atime : Nat
  mtime : Nat
  ctime : Nat
  crtime : Nat
  kind : FileType
  perm : Nat
  nlink : Nat
  uid : Nat
  gid : Nat
  rdev : Nat
  blksize : Nat
  flags : Nat
  deriving DecidableEq, Repr

/-- Modelled from the spec: a directory entry `(name, ino, kind)` (§3). -/
structure DirEntry where
  name : String
  ino : Nat
  kind : FileType
  deriving DecidableEq, Repr

/-- Modelled from the spec: `HandleState` — the inode and the
read/write permissions from the `open` flags (§4.7).  Positions and
dirty flags are not needed by any claim (reads and writes below take
explicit offsets). -/
structure Handle where
  ino : Nat
  canRead : Bool
  canWrite : Bool
  deriving DecidableEq, Repr

/-- Modelled from the spec: the engine state (§3 on-disk layout plus
§4.7 handle table), on decrypted views. -/
structure FsState where
  attrs : List (Nat × FileAttr)
  contents : List (Nat × List Nat)
  dirs : List (Nat × List DirEntry)
  handles : List (Nat × Handle)
  nextIno : Nat
  nextFh : Nat
  deriving DecidableEq, Repr

/-- The decrypted listing of directory `d` (empty when absent). -/
def entriesOf (fs : FsState) (d : Nat) : List DirEntry :=
  (lookupA d fs.dirs).getD []

/-- Modelled from the spec: the directory-store scan — "iterates the
folder, decrypts names until match" (§4.5). -/
def findEntry (name : String) : List DirEntry → Option DirEntry
  | [] => none
  | e :: rest => if e.name = name then some e else findEntry name rest

/-- Remove the entry (entries) with the given name. -/
def removeEntry (name : String) : List DirEntry → List DirEntry
  | [] => []
  | e :: rest => if e.name = name then removeEntry name rest else e :: removeEntry name rest

/-- How many entries of the listing carry the given name. -/
def nameCount (es : List DirEntry) (n : String) : Nat :=
  es.countP (fun e => e.name == n)

/-- Does any live handle refer to inode `ino`? -/
def anyHandle (hs : List (Nat × Handle)) (ino : Nat) : Bool :=
  hs.any (fun p => p.2.ino == ino)

/-- Replace the listing of directory `d`, maintaining the spec §3
invariant that a directory's `size` is its entry count. -/
def setEntries (fs : FsState) (d : Nat) (es : List DirEntry) : FsState :=
  { fs with
    dirs := insertA d es fs.dirs
    attrs := match lookupA d fs.attrs with
             | some a => insertA d { a with size := es.length } fs.attrs
             | none => fs.attrs }

/-- Modelled from the spec: what happens to an inode when its last
directory entry goes away (§3 lifecycle): while open handles remain the
inode only loses its link (delete-on-last-close); otherwise
`inodes/<ino>` and `contents/<ino>` are physically removed. -/
def dropIno (fs : FsState) (ino : Nat) : FsState :=
  if anyHandle fs.handles ino then
    { fs with attrs := match lookupA ino fs.attrs with
                       | some a => insertA ino { a with nlink := a.nlink - 1 } fs.attrs
                       | none => fs.attrs }
  else
    { fs with attrs := eraseA ino fs.attrs
              contents := eraseA ino fs.contents
              dirs := eraseA ino fs.dirs }

/-- Modelled from the spec: `lookup(parent, name)` → FileAttr or
`NotFound` (§4.5, §6). -/
def lookup (fs : FsState) (parent : Nat) (name : String) : Except FsError FileAttr :=
  match findEntry name (entriesOf fs parent) with
  | none => .error .NotFound
  | some e =>
    match lookupA e.ino fs.attrs with
    | none => .error .NotFound
    | some a => .ok a

/-- Modelled from the spec: `read_attr(ino)` (§4.4): missing file is
`NotFound`. -/
def read_attr (fs : FsState) (ino : Nat) : Except FsError FileAttr :=
  match lookupA ino fs.attrs with
  | none => .error .NotFound
  | some a => .ok a

/-- Modelled from the spec: `readdir(parent)` (§4.5) on the decrypted
view; the listing order is the insertion order (the spec requires some
deterministic order but fixes none).  The synthesized `"."`/`".."`
entries (§4.8) are omitted: they would need parent links the claims
never consult, and spec §3 keeps them out of the stored entries. -/
def readdir (fs : FsState) (parent : Nat) : List DirEntry :=
  entriesOf fs parent

/-- Modelled from the spec: `create_nod(parent, name, attr_template,
read, write)` → `(handle, FileAttr)` or `AlreadyExists` (§6, §4.5
`insert`, §4.8).  A fresh inode is allocated, its attribute record and
(for regular files) empty content stream are created, a handle with the
requested permissions is opened, and the entry is inserted into the
parent listing.  `createResultState` is the successful post-state. -/
def createResultState (fs : FsState) (parent : Nat) (name : String) (attrT : FileAttr)
    (read write : Bool) : FsState :=
  setEntries
    { fs with
      attrs := insertA fs.nextIno { attrT with ino := fs.nextIno, size := 0 } fs.attrs
      contents := if attrT.kind = .RegularFile then insertA fs.nextIno [] fs.contents
                  else fs.contents
      dirs := if attrT.kind = .Directory then insertA fs.nextIno [] fs.dirs else fs.dirs
      handles := insertA fs.nextFh ⟨fs.nextIno, read, write⟩ fs.handles
      nextIno := fs.nextIno + 1
      nextFh := fs.nextFh + 1 }
    parent (entriesOf fs parent ++ [⟨name, fs.nextIno, attrT.kind⟩])

/-- Modelled from the spec: the checks of `create_nod` (§4.5 `insert`
fails with `AlreadyExists` if `lookup(parent, name)` succeeds) in front
of `createResultState`. -/
def create_nod (fs : FsState) (parent : Nat) (name : String) (attrT : FileAttr)
    (read write : Bool) : Except FsError ((Nat × FileAttr) × FsState) :=
  match lookupA parent fs.attrs with
  | none => .error .NotFound
  | some pattr =>
    if pattr.kind ≠ .Directory then .error .NotADirectory
    else match findEntry name (entriesOf fs parent) with
    | some _ => .error .AlreadyExists
    | none =>
      .ok ((fs.nextFh, { attrT with ino := fs.nextIno, size := 0 }),
           createResultState fs parent name attrT read write)

/-- Modelled from the spec: `open(ino, read, write)` (§4.7): validates
that the inode exists and is a regular file, allocates a handle. -/
def openFile (fs : FsState) (ino : Nat) (read write : Bool) :
    Except FsError (Nat × FsState) :=
  match lookupA ino fs.attrs with
  | none => .error .NotFound
  | some a =>
    if a.kind ≠ .RegularFile then .error .InvalidInput
    else
      let fh := fs.nextFh
      .ok (fh, { fs with handles := insertA fh ⟨ino, read, write⟩ fs.handles
                         nextFh := fs.nextFh + 1 })

/-- Modelled from the spec: the content-store effect of
`write_all(ino, offset, data)` (§4.6): a write past end-of-file
zero-fills the gap explicitly, then the affected range is overwritten. -/
def writeContent (c : List Nat) (off : Nat) (data : List Nat) : List Nat :=
  let padded := c ++ List.replicate (off - c.length) 0
  padded.take off ++ data ++ padded.drop (off + data.length)

/-- Modelled from the spec: `write_all(ino, offset, data, handle)`
(§4.6, §6): requires a write handle on the inode; rewrites the content
stream and updates the plaintext `size` in `FileAttr`.  (The model
applies the size update immediately; `flush` adds durability only,
which the model does not otherwise observe.) -/
def write_all (fs : FsState) (ino off : Nat) (data : List Nat) (fh : Nat) :
    Except FsError FsState :=
  match lookupA fh fs.handles with
  | none => .error .NotFound
  | some h =>
    if h.ino ≠ ino then .error .InvalidInput
    else if h.canWrite = false then .error .PermissionDenied
    else match lookupA ino fs.attrs with
    | none => .error .NotFound
    | some a =>
      if a.kind ≠ .RegularFile then .error .InvalidInput
      else match lookupA ino fs.contents with
      | none => .error .NotFound
      | some c =>
        let c' := writeContent c off data
        .ok { fs with contents := insertA ino c' fs.contents
                      attrs := insertA ino { a with size := c'.length } fs.attrs }

/-- Modelled from the spec: `read(ino, offset, buf, handle)` (§4.6,
§6): requires a read handle on the inode, returns the requested slice
of the decrypted content (short at end-of-file). -/
def read (fs : FsState) (ino off len : Nat) (fh : Nat) : Except FsError (List Nat) :=
  match lookupA fh fs.handles with
  | none => .error .NotFound
  | some h =>
    if h.ino ≠ ino then .error .InvalidInput
    else if h.canRead = false then .error .PermissionDenied
    else match lookupA ino fs.attrs with
    | none => .error .NotFound
    | some _ =>
      match lookupA ino fs.contents with
      | none => .error .NotFound
      | some c => .ok ((c.drop off).take len)

/-- Modelled from the spec: `flush(handle)` (§4.6): makes buffered
writes durable.  Durability is not observable in the model, so the
state is unchanged; an unknown handle is rejected. -/
def flush (fs : FsState) (fh : Nat) : Except FsError FsState :=
  match lookupA fh fs.handles with
  | none => .error .NotFound
  | some _ => .ok fs

/-- Modelled from the spec: `release(handle)` (§4.6): flushes, drops
the handle, and if the inode was unlinked while held open (its link
count reached zero) and no other handle holds it, physically removes
`inodes/<ino>` and `contents/<ino>`. -/
def release (fs : FsState) (fh : Nat) : Except FsError FsState :=
  match lookupA fh fs.handles with
  | none => .error .NotFound
  | some h =>
    let hs := eraseA fh fs.handles
    match lookupA h.ino fs.attrs with
    | some a =>
      if a.nlink = 0 ∧ anyHandle hs h.ino = false then
        .ok { fs with handles := hs
                      attrs := eraseA h.ino fs.attrs
                      contents := eraseA h.ino fs.contents
                      dirs := eraseA h.ino fs.dirs }
      else .ok { fs with handles := hs }
    | none => .ok { fs with handles := hs }

/-- Modelled from the spec: `unlink(parent, name)` (§6, §3 lifecycle):
removes the directory entry; the inode itself is removed at once when
no handle holds it and is otherwise kept until last close. -/
def unlink (fs : FsState) (parent : Nat) (name : String) : Except FsError FsState :=
  match lookupA parent fs.attrs with
  | none => .error .NotFound
  | some pattr =>
    if pattr.kind ≠ .Directory then .error .NotADirectory
    else match findEntry name (entriesOf fs parent) with
    | none => .error .NotFound
    | some e =>
      if e.kind = .Directory then .error .IsADirectory
      else
        let fs₁ := setEntries fs parent (removeEntry name (entriesOf fs parent))
        .ok (dropIno fs₁ e.ino)

/-- Modelled from the spec: the mutation sequence of a successful
rename (§4.5): insert at the destination first, then remove a replaced
destination inode, finally remove the source entry. -/
def renameApply (fs : FsState) (sp : Nat) (sn : String) (dp : Nat) (dn : String)
    (e : DirEntry) (replaced : Option Nat) : FsState :=
  let fs₁ := setEntries fs dp (removeEntry dn (entriesOf fs dp) ++ [⟨dn, e.ino, e.kind⟩])
  let fs₂ := match replaced with
             | some rino => dropIno fs₁ rino
             | none => fs₁
  setEntries fs₂ sp (removeEntry sn (entriesOf fs₂ sp))

/-- Modelled from the spec: `rename(src_parent, src_name, dst_parent,
dst_name)` (§4.5): the destination may be replaced per POSIX rules
(empty directory for dir-onto-dir, non-dir onto non-dir); renaming an
entry onto itself is the POSIX no-op.  Any failed check leaves the
state untouched. -/
def rename (fs : FsState) (sp : Nat) (sn : String) (dp : Nat) (dn : String) :
    Except FsError FsState :=
  match lookupA sp fs.attrs with
  | none => .error .NotFound
  | some spattr =>
    if spattr.kind ≠ .Directory then .error .NotADirectory
    else match lookupA dp fs.attrs with
    | none => .error .NotFound
    | some dpattr =>
      if dpattr.kind ≠ .Directory then .error .NotADirectory
      else match findEntry sn (entriesOf fs sp) with
      | none => .error .NotFound
      | some e =>
        if sp = dp ∧ sn = dn then .ok fs
        else match findEntry dn (entriesOf fs dp) with
        | some de =>
          if de.kind = .Directory then
            if e.kind ≠ .Directory then .error .IsADirectory
            else if entriesOf fs de.ino ≠ [] then .error .NotEmpty
            else .ok (renameApply fs sp sn dp dn e (some de.ino))
          else
            if e.kind = .Directory then .error .NotADirectory
            else .ok (renameApply fs sp sn dp dn e (some de.ino))
        | none => .ok (renameApply fs sp sn dp dn e none)

/-- All inode numbers in the attribute store are below the allocator
(§3: identifiers are allocated monotonically). -/
def attrsBound (fs : FsState) : Prop :=
  ∀ p ∈ fs.attrs, p.1 < fs.nextIno

/-- All handles point below the inode allocator. -/
def handlesBound (fs : FsState) : Prop :=
  ∀ p ∈ fs.handles, p.2.ino < fs.nextIno

/-! ## Directory-listing lemmas -/

theorem lookupA_mem {κ α : Type} [DecidableEq κ] {k : κ} {v : α} {l : List (κ × α)}
    (h : lookupA k l = some v) : (k, v) ∈ l := by
  induction l with
  | nil => simp [lookupA] at h
  | cons p rest ih =>
    obtain ⟨k', v'⟩ := p
    simp only [lookupA] at h
    split at h
    · next heq =>
      cases Option.some.inj h
      subst heq
      exact List.mem_cons_self _ _
    · exact List.mem_cons_of_mem _ (ih h)

theorem findEntry_none_nameCount {n : String} {es : List DirEntry}
    (h : findEntry n es = none) : nameCount es n = 0 := by
  induction es with
  | nil => rfl
  | cons e rest ih =>
    by_cases he : e.name = n
    · simp [findEntry, he] at h
    · simp only [findEntry, if_neg he] at h
      simp [nameCount, List.countP_cons, he, ih h]
      simpa [nameCount] using ih h

theorem findEntry_append (n : String) (l₁ l₂ : List DirEntry) :
    findEntry n (l₁ ++ l₂)
      = match findEntry n l₁ with
        | some e => some e
        | none => findEntry n l₂ := by
  induction l₁ with
  | nil => simp [findEntry]
  | cons e rest ih =>
    by_cases he : e.name = n
    · simp [findEntry, he]
    · simp [findEntry, he, ih]

theorem nameCount_append (n : String) (l₁ l₂ : List DirEntry) :
    nameCount (l₁ ++ l₂) n = nameCount l₁ n + nameCount l₂ n := by
  simp [nameCount, List.countP_append]

theorem findEntry_removeEntry_self (n : String) (l : List DirEntry) :
    findEntry n (removeEntry n l) = none := by
  induction l with
  | nil => rfl
  | cons e rest ih =>
    by_cases he : e.name = n
    · simpa [removeEntry, he] using ih
    · simpa [removeEntry, findEntry, he] using ih

theorem findEntry_removeEntry_ne {n m : String} (l : List DirEntry) (h : n ≠ m) :
    findEntry n (removeEntry m l) = findEntry n l := by
  induction l with
  | nil => rfl
  | cons e rest ih =>
    by_cases hm : e.name = m
    · have hn : e.name ≠ n := by rw [hm]; exact Ne.symm h
      simp [removeEntry, findEntry, hm, hn, Ne.symm h, ih]
    · by_cases hn : e.name = n
      · simp [removeEntry, findEntry, hm, hn, h]
      · simp [removeEntry, findEntry, hm, hn, ih]

/-! ## `setEntries` and `dropIno` frame lemmas -/

theorem entriesOf_setEntries_self (fs : FsState) (d : Nat) (es : List DirEntry) :
    entriesOf (setEntries fs d es) d = es := by
  simp [entriesOf, setEntries, lookupA_insertA_self]

theorem entriesOf_setEntries_ne (fs : FsState) {d j : Nat} (es : List DirEntry)
    (h : j ≠ d) : entriesOf (setEntries fs d es) j = entriesOf fs j := by
  simp [entriesOf, setEntries, lookupA_insertA_ne _ _ h]

theorem attrs_setEntries_ne (fs : FsState) {d j : Nat} (es : List DirEntry)
    (h : j ≠ d) : lookupA j (setEntries fs d es).attrs = lookupA j fs.attrs := by
  simp only [setEntries]
  cases hd : lookupA d fs.attrs with
  | none => rfl
  | some a => simp [lookupA_insertA_ne _ _ h]

theorem attrs_setEntries_self {fs : FsState} {d : Nat} {a : FileAttr}
    (es : List DirEntry) (hd : lookupA d fs.attrs = some a) :
    lookupA d (setEntries fs d es).attrs = some { a with size := es.length } := by
  simp [setEntries, hd, lookupA_insertA_self]

theorem contents_setEntries (fs : FsState) (d : Nat) (es : List DirEntry) :
    (setEntries fs d es).contents = fs.contents := rfl

theorem handles_setEntries (fs : FsState) (d : Nat) (es : List DirEntry) :
    (setEntries fs d es).handles = fs.handles := rfl

theorem nextIno_setEntries (fs : FsState) (d : Nat) (es : List DirEntry) :
    (setEntries fs d es).nextIno = fs.nextIno := rfl

theorem attrs_dropIno_ne (fs : FsState) {ino j : Nat} (h : j ≠ ino) :
    lookupA j (dropIno fs ino).attrs = lookupA j fs.attrs := by
  simp only [dropIno]
  by_cases hh : anyHandle fs.handles ino
  · simp only [if_pos hh]
    cases ha : lookupA ino fs.attrs with
    | none => rfl
    | some a => simp [lookupA_insertA_ne _ _ h]
  · simp [if_neg hh, lookupA_eraseA_ne _ h]

theorem contents_dropIno_ne (fs : FsState) {ino j : Nat} (h : j ≠ ino) :
    lookupA j (dropIno fs ino).contents = lookupA j fs.contents := by
  simp only [dropIno]
  by_cases hh : anyHandle fs.handles ino
  · simp [if_pos hh]
  · simp [if_neg hh, lookupA_eraseA_ne _ h]

theorem dirs_dropIno_ne (fs : FsState) {ino j : Nat} (h : j ≠ ino) :
    entriesOf (dropIno fs ino) j = entriesOf fs j := by
  simp only [dropIno, entriesOf]
  by_cases hh : anyHandle fs.handles ino
  · simp [if_pos hh]
  · simp [if_neg hh, lookupA_eraseA_ne _ h]

theorem attrs_dropIno_self_open {fs : FsState} {ino : Nat} {a : FileAttr}
    (hany : anyHandle fs.handles ino = true) (ha : lookupA ino fs.attrs = some a) :
    lookupA ino (dropIno fs ino).attrs = some { a with nlink := a.nlink - 1 } := by
  simp only [dropIno, hany, if_true, ha]
  exact lookupA_insertA_self _ _ _

theorem contents_dropIno_open {fs : FsState} {ino : Nat}
    (hany : anyHandle fs.handles ino = true) :
    (dropIno fs ino).contents = fs.contents := by
  simp [dropIno, hany]

theorem dirs_dropIno_open {fs : FsState} {ino : Nat}
    (hany : anyHandle fs.handles ino = true) :
    (dropIno fs ino).dirs = fs.dirs := by
  simp [dropIno, hany]

theorem handles_dropIno (fs : FsState) (ino : Nat) :
    (dropIno fs ino).handles = fs.handles := by
  simp only [dropIno]
  by_cases hh : anyHandle fs.handles ino
  · simp [if_pos hh]
  · simp [if_neg hh]

theorem nextIno_dropIno (fs : FsState) (ino : Nat) :
    (dropIno fs ino).nextIno = fs.nextIno := by
  simp only [dropIno]
  by_cases hh : anyHandle fs.handles ino
  · simp [if_pos hh]
  · simp [if_neg hh]

/-! ## Operation inversion lemmas -/

theorem create_nod_ok {fs : FsState} {parent : Nat} {name : String} {attrT : FileAttr}
    {r w : Bool} {fh : Nat} {a : FileAttr} {fs' : FsState}
    (h : create_nod fs parent name attrT r w = .ok ((fh, a), fs')) :
    (∃ pattr, lookupA parent fs.attrs = some pattr ∧ pattr.kind = .Directory) ∧
    findEntry name (entriesOf fs parent) = none ∧
    fh = fs.nextFh ∧ a = { attrT with ino := fs.nextIno, size := 0 } ∧
    fs' = createResultState fs parent name attrT r w := by
  simp only [create_nod] at h
  split at h
  · exact absurd h (by simp)
  · next pattr hp =>
    split at h
    · exact absurd h (by simp)
    · next hkind =>
      split at h
      · exact absurd h (by simp)
      · next hfind =>
        have hx := Except.ok.inj h
        obtain ⟨hpair, hfs⟩ := Prod.mk.inj hx
        obtain ⟨hfh, ha⟩ := Prod.mk.inj hpair
        exact ⟨⟨pattr, hp, not_not.mp hkind⟩, hfind, hfh.symm, ha.symm, hfs.symm⟩

/-! ## Claim C6 -/

/-- Claim C6: for every parent directory and every name accepted by
`create_nod`, a subsequent `readdir(parent)` yields the name exactly
once and `lookup(parent, name)` returns the inode created by that
`create_nod`; inserting the same name a second time fails with
`AlreadyExists`. -/
theorem C6_create_lookup_readdir (fs : FsState) (parent : Nat) (name : String)
    (attrT : FileAttr) (r w : Bool) (fh : Nat) (a : FileAttr) (fs' : FsState)
    (hb : attrsBound fs)
    (hc : create_nod fs parent name attrT r w = .ok ((fh, a), fs')) :
    nameCount (readdir fs' parent) name = 1 ∧
    (lookup fs' parent name).map (fun x => x.ino) = .ok a.ino ∧
    (∀ (attrT' : FileAttr) (r' w' : Bool),
       create_nod fs' parent name attrT' r' w' = .error .AlreadyExists) := by
  obtain ⟨⟨pattr, hp, hkind⟩, hfind, hfh, ha, hfs⟩ := create_nod_ok hc
  have hpi : parent < fs.nextIno := hb _ (lookupA_mem hp)
  have hpne : fs.nextIno ≠ parent := Nat.ne_of_gt hpi
  have hent : entriesOf fs' parent
      = entriesOf fs parent ++ [⟨name, fs.nextIno, attrT.kind⟩] := by
    rw [hfs, createResultState]
    exact entriesOf_setEntries_self _ _ _
  have hfound : findEntry name (entriesOf fs' parent)
      = some ⟨name, fs.nextIno, attrT.kind⟩ := by
    rw [hent, findEntry_append, hfind]
    simp [findEntry]
  have hattr1 : lookupA parent fs'.attrs = some { pattr with
      size := (entriesOf fs parent
                ++ [({ name := name, ino := fs.nextIno, kind := attrT.kind } : DirEntry)]).length } := by
    rw [hfs, createResultState]
    exact attrs_setEntries_self _ (by simpa [lookupA_insertA_ne _ _ (Ne.symm hpne)] using hp)
  have hattr2 : lookupA fs.nextIno fs'.attrs
      = some { attrT with ino := fs.nextIno, size := 0 } := by
    rw [hfs, createResultState, attrs_setEntries_ne _ _ hpne]
    exact lookupA_insertA_self _ _ _
  refine ⟨?_, ?_, ?_⟩
  · rw [readdir, hent, nameCount_append, findEntry_none_nameCount hfind]
    simp [nameCount, List.countP_cons]
  · rw [lookup, hfound]
    simp [hattr2, ha, Except.map]
  · intro attrT' r' w'
    rw [create_nod, hattr1]
    simp [hkind, hfound]

theorem removeEntry_append (n : String) (l₁ l₂ : List DirEntry) :
    removeEntry n (l₁ ++ l₂) = removeEntry n l₁ ++ removeEntry n l₂ := by
  induction l₁ with
  | nil => rfl
  | cons e rest ih =>
    by_cases he : e.name = n
    · simp [removeEntry, he, ih]
    · simp [removeEntry, he, ih]

theorem removeEntry_of_findEntry_none {n : String} {l : List DirEntry}
    (h : findEntry n l = none) : removeEntry n l = l := by
  induction l with
  | nil => rfl
  | cons e rest ih =>
    by_cases he : e.name = n
    · simp [findEntry, he] at h
    · simp only [findEntry, if_neg he] at h
      simp [removeEntry, he, ih h]

theorem anyHandle_eq_false {hs : List (Nat × Handle)} {ino : Nat}
    (h : ∀ p ∈ hs, p.2.ino ≠ ino) : anyHandle hs ino = false := by
  simp only [anyHandle, List.any_eq_false]
  intro p hp
  simpa using h p hp

theorem eraseA_cons_self {κ α : Type} [DecidableEq κ] (k : κ) (v : α)
    (l : List (κ × α)) : eraseA k ((k, v) :: l) = eraseA k l := by
  simp [eraseA]

/-! ## Content-store lemmas -/

theorem writeContent_of_ge (c : List Nat) (off : Nat) (data : List Nat)
    (h : c.length ≤ off) :
    writeContent c off data = c ++ List.replicate (off - c.length) 0 ++ data := by
  simp only [writeContent]
  have hlen : (c ++ List.replicate (off - c.length) 0).length = off := by
    simp
    omega
  rw [List.take_of_length_le (le_of_eq hlen),
      List.drop_eq_nil_of_le (by rw [hlen]; exact Nat.le_add_right _ _)]
  simp

theorem writeContent_length_of_ge (c : List Nat) (off : Nat) (data : List Nat)
    (h : c.length ≤ off) :
    (writeContent c off data).length = off + data.length := by
  rw [writeContent_of_ge c off data h]
  simp
  omega

/-- The written range reads back as the written data. -/
theorem writeContent_readback (c : List Nat) (off : Nat) (data : List Nat) :
    ((writeContent c off data).drop off).take data.length = data := by
  simp only [writeContent]
  have hlen : ((c ++ List.replicate (off - c.length) 0).take off).length = off := by
    simp
    omega
  calc ((((c ++ List.replicate (off - c.length) 0).take off) ++ data
          ++ (c ++ List.replicate (off - c.length) 0).drop (off + data.length)).drop
            off).take data.length
      = ((((c ++ List.replicate (off - c.length) 0).take off) ++ (data
          ++ (c ++ List.replicate (off - c.length) 0).drop (off + data.length))).drop
            ((c ++ List.replicate (off - c.length) 0).take off).length).take
              data.length := by rw [hlen, List.append_assoc]
    _ = (data ++ (c ++ List.replicate (off - c.length) 0).drop
            (off + data.length)).take data.length := by rw [List.drop_left]
    _ = data := List.take_left' rfl

theorem write_all_ok {fs : FsState} {ino off : Nat} {data : List Nat} {fh : Nat}
    {fs' : FsState} (h : write_all fs ino off data fh = .ok fs') :
    ∃ hdl a c, lookupA fh fs.handles = some hdl ∧ hdl.ino = ino ∧
      hdl.canWrite = true ∧ lookupA ino fs.attrs = some a ∧
      a.kind = .RegularFile ∧ lookupA ino fs.contents = some c ∧
      fs' = { fs with
              contents := insertA ino (writeContent c off data) fs.contents
              attrs := insertA ino { a with
                size := (writeContent c off data).length } fs.attrs } := by
  simp only [write_all] at h
  split at h
  · exact absurd h (by simp)
  · next hdl hhdl =>
    split at h
    · exact absurd h (by simp)
    · next hino =>
      split at h
      · exact absurd h (by simp)
      · next hcw =>
        split at h
        · exact absurd h (by simp)
        · next a ha =>
          split at h
          · exact absurd h (by simp)
          · next hkind =>
            split at h
            · exact absurd h (by simp)
            · next c hc =>
              exact ⟨hdl, a, c, hhdl, not_not.mp hino, by simpa using hcw, ha,
                     not_not.mp hkind, hc, (Except.ok.inj h).symm⟩

/-! ## Claim C7 -/

/-- Claim C7: writing at an offset strictly beyond the current end of a
regular file makes the file's size `offset + len(data)`, and the gap
between the old size and the offset reads back as explicit zero bytes
(the model's content length is the file size, per spec §8 invariant 2). -/
theorem C7_write_past_eof (fs : FsState) (ino off : Nat) (data : List Nat)
    (fh fh2 : Nat) (fs' : FsState) (c : List Nat) (h2 : Handle)
    (hc : lookupA ino fs.contents = some c)
    (hoff : c.length < off)
    (hw : write_all fs ino off data fh = .ok fs')
    (hh2 : lookupA fh2 fs.handles = some h2) (hh2i : h2.ino = ino)
    (hh2r : h2.canRead = true) :
    (read_attr fs' ino).map (fun x => x.size) = .ok (off + data.length) ∧
    read fs' ino c.length (off - c.length) fh2
      = .ok (List.replicate (off - c.length) 0) := by
  obtain ⟨hdl, a, c0, hhdl, hino, hcw, ha, hkind, hc0, hfs⟩ := write_all_ok hw
  have hcc : c0 = c := by
    rw [hc] at hc0
    exact (Option.some.inj hc0).symm
  subst hcc
  have hattr : lookupA ino fs'.attrs
      = some { a with size := (writeContent c0 off data).length } := by
    rw [hfs]
    exact lookupA_insertA_self _ _ _
  have hcont : lookupA ino fs'.contents = some (writeContent c0 off data) := by
    rw [hfs]
    exact lookupA_insertA_self _ _ _
  have hhandles : fs'.handles = fs.handles := by rw [hfs]
  constructor
  · rw [read_attr, hattr]
    simp [Except.map, writeContent_length_of_ge c0 off data (Nat.le_of_lt hoff)]
  · rw [read, hhandles, hh2]
    simp only [hh2i, if_neg (by simp : ¬(ino ≠ ino)), hh2r,
               if_neg (by simp : ¬(true = false)), hattr, hcont]
    rw [writeContent_of_ge c0 off data (Nat.le_of_lt hoff), List.append_assoc,
        List.drop_left]
    have : (List.replicate (off - c0.length) (0 : Nat)).length = off - c0.length := by
      simp
    rw [List.take_left' this]

/-- Claim C7 witness: writing one byte at offset 5 of an empty file
makes the size 6 and offsets 0–4 read back as five zero bytes. -/
theorem C7_write_past_eof_witness :
    (read_attr
        { attrs := [(2, { ino := 2, size := 6, blocks := 0, atime := 0, mtime := 0,
                          ctime := 0, crtime := 0, kind := .RegularFile, perm := 420,
                          nlink := 1, uid := 0, gid := 0, rdev := 0, blksize := 0,
                          flags := 0 }),
                    (1, { ino := 1, size := 1, blocks := 0, atime := 0, mtime := 0,
                          ctime := 0, crtime := 0, kind := .Directory, perm := 493,
                          nlink := 2, uid := 0, gid := 0, rdev := 0, blksize := 0,
                          flags := 0 })]
          contents := [(2, [0, 0, 0, 0, 0, 88])]
          dirs := [(1, [{ name := "f", ino := 2, kind := .RegularFile }])]
          handles := [(3, { ino := 2, canRead := true, canWrite := true })]
          nextIno := 3
          nextFh := 4 } 2).map (fun x => x.size) = .ok (5 + 1) ∧
    read
        { attrs := [(2, { ino := 2, size := 6, blocks := 0, atime := 0, mtime := 0,
                          ctime := 0, crtime := 0, kind := .RegularFile, perm := 420,
                          nlink := 1, uid := 0, gid := 0, rdev := 0, blksize := 0,
                          flags := 0 }),
                    (1, { ino := 1, size := 1, blocks := 0, atime := 0, mtime := 0,
                          ctime := 0, crtime := 0, kind := .Directory, perm := 493,
                          nlink := 2, uid := 0, gid := 0, rdev := 0, blksize := 0,
                          flags := 0 })]
          contents := [(2, [0, 0, 0, 0, 0, 88])]
          dirs := [(1, [{ name := "f", ino := 2, kind := .RegularFile }])]
          handles := [(3, { ino := 2, canRead := true, canWrite := true })]
          nextIno := 3
          nextFh := 4 } 2 0 5 3 = .ok (List.replicate 5 0) := by
  have happ := C7_write_past_eof
    { attrs := [(2, { ino := 2, size := 0, blocks := 0, atime := 0, mtime := 0,
                      ctime := 0, crtime := 0, kind := .RegularFile, perm := 420,
                      nlink := 1, uid := 0, gid := 0, rdev := 0, blksize := 0,
                      flags := 0 }),
                (1, { ino := 1, size := 1, blocks := 0, atime := 0, mtime := 0,
                      ctime := 0, crtime := 0, kind := .Directory, perm := 493,
                      nlink := 2, uid := 0, gid := 0, rdev := 0, blksize := 0,
                      flags := 0 })]
      contents := [(2, [])]
      dirs := [(1, [{ name := "f", ino := 2, kind := .RegularFile }])]
      handles := [(3, { ino := 2, canRead := true, canWrite := true })]
      nextIno := 3
      nextFh := 4 } 2 5 [88] 3 3
    { attrs := [(2, { ino := 2, size := 6, blocks := 0, atime := 0, mtime := 0,
                      ctime := 0, crtime := 0, kind := .RegularFile, perm := 420,
                      nlink := 1, uid := 0, gid := 0, rdev := 0, blksize := 0,
                      flags := 0 }),
                (1, { ino := 1, size := 1, blocks := 0, atime := 0, mtime := 0,
                      ctime := 0, crtime := 0, kind := .Directory, perm := 493,
                      nlink := 2, uid := 0, gid := 0, rdev := 0, blksize := 0,
                      flags := 0 })]
      contents := [(2, [0, 0, 0, 0, 0, 88])]
      dirs := [(1, [{ name := "f", ino := 2, kind := .RegularFile }])]
      handles := [(3, { ino := 2, canRead := true, canWrite := true })]
      nextIno := 3
      nextFh := 4 } [] { ino := 2, canRead := true, canWrite := true }
    (by decide) (by decide) rfl (by decide) (by decide) (by decide)
  simpa using happ

/-! ## Claim C8 -/

/-- Claim C8: for every regular file created as `(parent, name)` with a
readable open handle, unlinking it while the handle is open succeeds;
afterwards `lookup(parent, name)` returns `NotFound` yet `read` through
the held handle still succeeds; and once `release` of the handle
returns, both `inodes/<ino>` and `contents/<ino>` are absent from
disk. -/
theorem C8_delete_on_last_close (fs : FsState) (parent : Nat) (name : String)
    (attrT : FileAttr) (w : Bool) (fh : Nat) (a : FileAttr) (s1 : FsState)
    (hb : attrsBound fs) (hhb : handlesBound fs)
    (hkindT : attrT.kind = .RegularFile) (hnl : attrT.nlink = 1)
    (hc : create_nod fs parent name attrT true w = .ok ((fh, a), s1)) :
    ∃ s2, unlink s1 parent name = .ok s2 ∧
      lookup s2 parent name = .error .NotFound ∧
      (∀ n, read s2 a.ino 0 n fh = .ok []) ∧
      ∃ s3, release s2 fh = .ok s3 ∧
        lookupA a.ino s3.attrs = none ∧ lookupA a.ino s3.contents = none := by
  obtain ⟨⟨pattr, hp, hkind⟩, hfind, hfh, ha, hfs⟩ := create_nod_ok hc
  subst ha
  subst hfh
  have hpi : parent < fs.nextIno := hb _ (lookupA_mem hp)
  have hpne : fs.nextIno ≠ parent := Nat.ne_of_gt hpi
  have h1ent : entriesOf s1 parent
      = entriesOf fs parent
        ++ [({ name := name, ino := fs.nextIno, kind := attrT.kind } : DirEntry)] := by
    rw [hfs, createResultState]
    exact entriesOf_setEntries_self _ _ _
  have h1found : findEntry name (entriesOf s1 parent)
      = some { name := name, ino := fs.nextIno, kind := attrT.kind } := by
    rw [h1ent, findEntry_append, hfind]
    simp [findEntry]
  have h1attrP : lookupA parent s1.attrs = some { pattr with
      size := (entriesOf fs parent
        ++ [({ name := name, ino := fs.nextIno, kind := attrT.kind } : DirEntry)]).length } := by
    rw [hfs, createResultState]
    exact attrs_setEntries_self _
      (by simpa [lookupA_insertA_ne _ _ (Ne.symm hpne)] using hp)
  have h1attrI : lookupA fs.nextIno s1.attrs
      = some { attrT with ino := fs.nextIno, size := 0 } := by
    rw [hfs, createResultState, attrs_setEntries_ne _ _ hpne]
    exact lookupA_insertA_self _ _ _
  have h1cont : s1.contents = insertA fs.nextIno [] fs.contents := by
    rw [hfs]
    simp [createResultState, setEntries, hkindT]
  have h1hand : s1.handles
      = insertA fs.nextFh { ino := fs.nextIno, canRead := true, canWrite := w }
          fs.handles := by
    rw [hfs]
    rfl
  have hrem : removeEntry name (entriesOf s1 parent) = entriesOf fs parent := by
    rw [h1ent, removeEntry_append, removeEntry_of_findEntry_none hfind]
    simp [removeEntry]
  have hunlink : unlink s1 parent name
      = .ok (dropIno (setEntries s1 parent (entriesOf fs parent)) fs.nextIno) := by
    simp only [unlink, h1attrP, h1found]
    rw [hrem]
    simp [hkind, hkindT]
  have hany : anyHandle (setEntries s1 parent (entriesOf fs parent)).handles
      fs.nextIno = true := by
    rw [handles_setEntries, h1hand]
    simp [anyHandle, insertA]
  have hattrIE : lookupA fs.nextIno
      (setEntries s1 parent (entriesOf fs parent)).attrs
      = some { attrT with ino := fs.nextIno, size := 0 } := by
    rw [attrs_setEntries_ne _ _ hpne]
    exact h1attrI
  refine ⟨dropIno (setEntries s1 parent (entriesOf fs parent)) fs.nextIno,
          hunlink, ?_, ?_, ?_⟩
  · have hent2 : entriesOf
        (dropIno (setEntries s1 parent (entriesOf fs parent)) fs.nextIno) parent
        = entriesOf fs parent := by
      rw [entriesOf, dirs_dropIno_open hany]
      have := entriesOf_setEntries_self s1 parent (entriesOf fs parent)
      rw [entriesOf] at this
      exact this
    simp only [lookup, hent2, hfind]
  · intro n
    have hh : lookupA fs.nextFh
        (dropIno (setEntries s1 parent (entriesOf fs parent)) fs.nextIno).handles
        = some { ino := fs.nextIno, canRead := true, canWrite := w } := by
      rw [handles_dropIno, handles_setEntries, h1hand]
      exact lookupA_insertA_self _ _ _
    have hattr2 : lookupA fs.nextIno
        (dropIno (setEntries s1 parent (entriesOf fs parent)) fs.nextIno).attrs
        = some { { attrT with ino := fs.nextIno, size := 0 } with
                 nlink := ({ attrT with ino := fs.nextIno, size := 0 } : FileAttr).nlink - 1 } :=
      attrs_dropIno_self_open hany hattrIE
    have hcont2 : lookupA fs.nextIno
        (dropIno (setEntries s1 parent (entriesOf fs parent)) fs.nextIno).contents
        = some [] := by
      rw [contents_dropIno_open hany, contents_setEntries, h1cont]
      exact lookupA_insertA_self _ _ _
    simp only [read, hh, hattr2, hcont2]
    simp
  · have hh : lookupA fs.nextFh
        (dropIno (setEntries s1 parent (entriesOf fs parent)) fs.nextIno).handles
        = some { ino := fs.nextIno, canRead := true, canWrite := w } := by
      rw [handles_dropIno, handles_setEntries, h1hand]
      exact lookupA_insertA_self _ _ _
    have hattr2 : lookupA fs.nextIno
        (dropIno (setEntries s1 parent (entriesOf fs parent)) fs.nextIno).attrs
        = some { { attrT with ino := fs.nextIno, size := 0 } with
                 nlink := ({ attrT with ino := fs.nextIno, size := 0 } : FileAttr).nlink - 1 } :=
      attrs_dropIno_self_open hany hattrIE
    have hanyrel : anyHandle (eraseA fs.nextFh
        (dropIno (setEntries s1 parent (entriesOf fs parent)) fs.nextIno).handles)
        fs.nextIno = false := by
      rw [handles_dropIno, handles_setEntries, h1hand, insertA,
          eraseA_cons_self]
      refine anyHandle_eq_false ?_
      intro p hp2
      have hmem : p ∈ fs.handles := mem_eraseA (mem_eraseA hp2)
      exact Nat.ne_of_lt (hhb p hmem)
    refine ⟨{ dropIno (setEntries s1 parent (entriesOf fs parent)) fs.nextIno with
              handles := eraseA fs.nextFh
                (dropIno (setEntries s1 parent (entriesOf fs parent)) fs.nextIno).handles
              attrs := eraseA fs.nextIno
                (dropIno (setEntries s1 parent (entriesOf fs parent)) fs.nextIno).attrs
              contents := eraseA fs.nextIno
                (dropIno (setEntries s1 parent (entriesOf fs parent)) fs.nextIno).contents
              dirs := eraseA fs.nextIno
                (dropIno (setEntries s1 parent (entriesOf fs parent)) fs.nextIno).dirs },
           ?_, ?_, ?_⟩
    · simp only [release, hh, hattr2]
      rw [if_pos ?side]
      case side =>
        refine ⟨by simp [hnl], ?_⟩
        simpa using hanyrel
    · simpa using lookupA_eraseA_self fs.nextIno _
    · simpa using lookupA_eraseA_self fs.nextIno _

/-- Concrete root-directory attribute for witnesses (spec §3: root is
inode 1, directories have `nlink ≥ 2`). -/
def rootAttr : FileAttr :=
  { ino := 1, size := 0, blocks := 0, atime := 0, mtime := 0, ctime := 0, crtime := 0,
    kind := .Directory, perm := 493, nlink := 2, uid := 0, gid := 0, rdev := 0,
    blksize := 0, flags := 0 }

/-- Concrete regular-file attribute template for witnesses (the
module-doc `create_attr(RegularFile)` of `src/lib.rs`). -/
def fileTpl : FileAttr :=
  { ino := 0, size := 0, blocks := 0, atime := 0, mtime := 0, ctime := 0, crtime := 0,
    kind := .RegularFile, perm := 420, nlink := 1, uid := 0, gid := 0, rdev := 0,
    blksize := 0, flags := 0 }

/-- Concrete freshly-initialised engine state: only the root directory
exists (spec §3: `contents/1` exists from first mount). -/
def fs0 : FsState :=
  { attrs := [(1, rootAttr)], contents := [], dirs := [(1, [])], handles := [],
    nextIno := 2, nextFh := 1 }

/-- Claim C6 witness: creating `"file1"` under the root of the fresh
state; its listing, lookup and duplicate-insert behaviour. -/
theorem C6_create_lookup_readdir_witness :
    nameCount (readdir (createResultState fs0 1 "file1" fileTpl false true) 1)
      "file1" = 1 ∧
    (lookup (createResultState fs0 1 "file1" fileTpl false true) 1 "file1").map
      (fun x => x.ino)
      = .ok ({ fileTpl with ino := 2, size := 0 } : FileAttr).ino ∧
    (∀ (attrT' : FileAttr) (r' w' : Bool),
       create_nod (createResultState fs0 1 "file1" fileTpl false true) 1 "file1"
         attrT' r' w' = .error .AlreadyExists) :=
  C6_create_lookup_readdir fs0 1 "file1" fileTpl false true 1
    { fileTpl with ino := 2, size := 0 }
    (createResultState fs0 1 "file1" fileTpl false true)
    (by unfold attrsBound; decide) rfl

/-- Claim C8 witness: create `(1, "f")` with a readable handle in the
fresh state, unlink it while the handle is open, then release. -/
theorem C8_delete_on_last_close_witness :
    ∃ s2, unlink (createResultState fs0 1 "f" fileTpl true true) 1 "f" = .ok s2 ∧
      lookup s2 1 "f" = .error .NotFound ∧
      (∀ n, read s2 ({ fileTpl with ino := 2, size := 0 } : FileAttr).ino 0 n 1
              = .ok []) ∧
      ∃ s3, release s2 1 = .ok s3 ∧
        lookupA ({ fileTpl with ino := 2, size := 0 } : FileAttr).ino s3.attrs = none ∧
        lookupA ({ fileTpl with ino := 2, size := 0 } : FileAttr).ino s3.contents
          = none :=
  C8_delete_on_last_close fs0 1 "f" fileTpl true 1
    { fileTpl with ino := 2, size := 0 }
    (createResultState fs0 1 "f" fileTpl true true)
    (by unfold attrsBound; decide) (by unfold handlesBound; decide)
    (by decide) (by decide) rfl

/-! ## Claim C10 -/

/-- Claim C10: `is_debug` takes no input besides the build
configuration and is a constant function of it — it returns `true` in
builds compiled with `debug_assertions` and `false` otherwise; being a
pure function of the configuration, every call within one build
returns the same value. -/
theorem C10_is_debug_constant :
    is_debug true = true ∧ is_debug false = false ∧ ∀ da : Bool, is_debug da = da := by
  refine ⟨rfl, rfl, fun da => ?_⟩
  cases da <;> rfl

/-! ## Claim C9 -/

/-- Claim C9: `save_to_keyring`, `get_from_keyring` and
`delete_from_keyring` all address the same keyring entry — service
`"rencfs"` and user `"encrypted_fs.<suffix>"` — so saving a password
under a suffix and reading that suffix back returns exactly the saved
password (and deleting it removes it). -/
theorem C9_keyring_round_trip :
    (∀ suffix : String, keyringEntry suffix = ("rencfs", "encrypted_fs." ++ suffix)) ∧
    (∀ (kr : Keyring) (p suffix : String),
       get_from_keyring (save_to_keyring kr p suffix) suffix = some p) ∧
    (∀ (kr : Keyring) (suffix : String),
       get_from_keyring (delete_from_keyring kr suffix) suffix = none) := by
  refine ⟨fun suffix => rfl, fun kr p suffix => ?_, fun kr suffix => ?_⟩
  · exact lookupA_insertA_self _ _ _
  · exact lookupA_eraseA_self _ _

/-! ## Claim C2 -/

/-- Claim C2: for every file under the data directory holding a sealed
record and every single-bit flip applied to it, the next operation that
touches the file fails with `Corrupted` — and, the error branch of
`readEnc` carrying no bytes, no plaintext is delivered — while every
other file still reads back exactly as before (the engine remains
usable for other inodes). -/
theorem C2_tamper_detection (store : EncStore) (path : String) (body : List Bool)
    (i : Nat) (hfile : lookupA path store = some (sealRec body))
    (hi : i < (sealRec body).length) :
    readEnc (tamperStore store path i) path = .error .Corrupted ∧
    ∀ q : String, q ≠ path → readEnc (tamperStore store path i) q = readEnc store q := by
  constructor
  · simp only [tamperStore, hfile, readEnc, lookupA_insertA_self]
    rcases Nat.lt_or_ge i body.length with hlt | hge
    · exact openSealed_flip_body body i hlt
    · have hieq : i = body.length := by
        have hlen := sealRec_length body
        omega
      rw [hieq]
      exact openSealed_flip_tag body
  · intro q hq
    simp only [tamperStore, hfile, readEnc, lookupA_insertA_ne _ _ hq]

/-- Claim C2 witness: a concrete two-file data directory; flipping bit 1
of `contents/2` corrupts it and leaves `inodes/2` readable. -/
theorem C2_tamper_detection_witness :
    readEnc (tamperStore [("contents/2", sealRec [true, false, true]),
                          ("inodes/2", sealRec [false, false])] "contents/2" 1)
        "contents/2" = .error .Corrupted ∧
    ∀ q : String, q ≠ "contents/2" →
      readEnc (tamperStore [("contents/2", sealRec [true, false, true]),
                            ("inodes/2", sealRec [false, false])] "contents/2" 1) q
        = readEnc [("contents/2", sealRec [true, false, true]),
                   ("inodes/2", sealRec [false, false])] q :=
  C2_tamper_detection _ _ [true, false, true] 1 (by decide) (by decide)

/-! ## Claims C3 and C4 -/

/-- Claim C3: for distinct passwords `old ≠ new`, after a successful
`change_password(d, old, new)` the data directory opens under `new`
(yielding the same master key as before, so prior files read back
identically — the non-key files are unchanged too) and fails under
`old` with `InvalidPassword`; `change_password` itself fails with
`InvalidPassword` when the old password is wrong and with
`InvalidDataDirStructure` when the key file is missing or corrupt. -/
theorem C3_password_round_trip (d : DataDir) (old new wrongOld : String)
    (freshSalt : Nat) (d' : DataDir) (kf : KeyFile)
    (hkf : d.keyFile = some kf) (hne : old ≠ new)
    (hok : change_password d old new freshSalt = .ok d') :
    init d' new = .ok kf.masterKey ∧
    init d' old = .error .InvalidPassword ∧
    init d old = .ok kf.masterKey ∧
    d'.files = d.files ∧
    (init d wrongOld = .error .InvalidPassword →
       change_password d wrongOld new freshSalt = .error .InvalidPassword) ∧
    (∀ e : DataDir, e.keyFile = none →
       change_password e old new freshSalt = .error .InvalidDataDirStructure) := by
  simp only [change_password, hkf] at hok
  by_cases hkek : kdf old kf.salt = kf.kek
  · rw [if_pos hkek] at hok
    have hd' := (Except.ok.injEq _ _).mp hok
    subst hd'
    refine ⟨?_, ?_, ?_, rfl, ?_, ?_⟩
    · simp [init, kdf]
    · simp only [init, kdf]
      rw [if_neg (by simp [kdf]; intro h; exact absurd h hne)]
    · simp [init, hkf, hkek]
    · intro hw
      simp only [init, hkf] at hw
      by_cases hwk : kdf wrongOld kf.salt = kf.kek
      · rw [if_pos hwk] at hw
        exact absurd hw (by simp)
      · simp only [change_password, hkf]
        rw [if_neg hwk]
    · intro e he
      simp [change_password, he]
  · rw [if_neg hkek] at hok
    exact absurd hok (by simp)

/-- Claim C3 witness: a concrete key file sealed under `"pw"`; changing
to `"pw2"` with fresh salt 7. -/
theorem C3_password_round_trip_witness :
    init { keyFile := some { salt := 7, kek := kdf "pw2" 7, masterKey := 42 }
           files := [("contents/2", [9, 9])] } "pw2" = .ok 42 ∧
    init { keyFile := some { salt := 7, kek := kdf "pw2" 7, masterKey := 42 }
           files := [("contents/2", [9, 9])] } "pw" = .error .InvalidPassword ∧
    init { keyFile := some { salt := 3, kek := kdf "pw" 3, masterKey := 42 }
           files := [("contents/2", [9, 9])] } "pw" = .ok 42 ∧
    ({ keyFile := some { salt := 7, kek := kdf "pw2" 7, masterKey := 42 }
       files := [("contents/2", [9, 9])] } : DataDir).files
      = ({ keyFile := some { salt := 3, kek := kdf "pw" 3, masterKey := 42 }
           files := [("contents/2", [9, 9])] } : DataDir).files ∧
    (init { keyFile := some { salt := 3, kek := kdf "pw" 3, masterKey := 42 }
            files := [("contents/2", [9, 9])] } "oops" = .error .InvalidPassword →
       change_password { keyFile := some { salt := 3, kek := kdf "pw" 3, masterKey := 42 }
                         files := [("contents/2", [9, 9])] } "oops" "pw2" 7
         = .error .InvalidPassword) ∧
    (∀ e : DataDir, e.keyFile = none →
       change_password e "pw" "pw2" 7 = .error .InvalidDataDirStructure) :=
  C3_password_round_trip
    { keyFile := some { salt := 3, kek := kdf "pw" 3, masterKey := 42 }
      files := [("contents/2", [9, 9])] }
    "pw" "pw2" "oops" 7
    { keyFile := some { salt := 7, kek := kdf "pw2" 7, masterKey := 42 }
      files := [("contents/2", [9, 9])] }
    { salt := 3, kek := kdf "pw" 3, masterKey := 42 }
    rfl (by decide) rfl

/-- Claim C4: `change_password` re-seals the same master key under a
KEK derived from the new password with the fresh salt, and replaces
only the `key` file: every other file of the data directory is
byte-for-byte unchanged (nothing is re-encrypted).  The write-to-temp +
rename of the `key` file is a single atomic state update in the model. -/
theorem C4_change_password_frame (d : DataDir) (old new : String) (freshSalt : Nat)
    (d' : DataDir) (kf : KeyFile) (hkf : d.keyFile = some kf)
    (hok : change_password d old new freshSalt = .ok d') :
    d'.files = d.files ∧
    d'.keyFile = some { salt := freshSalt, kek := kdf new freshSalt
                        masterKey := kf.masterKey } := by
  simp only [change_password, hkf] at hok
  by_cases hkek : kdf old kf.salt = kf.kek
  · rw [if_pos hkek] at hok
    have hd' := (Except.ok.injEq _ _).mp hok
    subst hd'
    exact ⟨rfl, rfl⟩
  · rw [if_neg hkek] at hok
    exact absurd hok (by simp)

/-- Claim C4 witness: the concrete password change of the C3 witness;
the non-key file is untouched and the key file holds the same master
key under the new KEK. -/
theorem C4_change_password_frame_witness :
    ({ keyFile := some { salt := 7, kek := kdf "pw2" 7, masterKey := 42 }
       files := [("contents/2", [9, 9])] } : DataDir).files
      = ({ keyFile := some { salt := 3, kek := kdf "pw" 3, masterKey := 42 }
           files := [("contents/2", [9, 9])] } : DataDir).files ∧
    ({ keyFile := some { salt := 7, kek := kdf "pw2" 7, masterKey := 42 }
       files := [("contents/2", [9, 9])] } : DataDir).keyFile
      = some { salt := 7, kek := kdf "pw2" 7, masterKey := 42 } :=
  C4_change_password_frame
    { keyFile := some { salt := 3, kek := kdf "pw" 3, masterKey := 42 }
      files := [("contents/2", [9, 9])] }
    "pw" "pw2" 7
    { keyFile := some { salt := 7, kek := kdf "pw2" 7, masterKey := 42 }
      files := [("contents/2", [9, 9])] }
    { salt := 3, kek := kdf "pw" 3, masterKey := 42 }
    rfl rfl

/-! ## More operation inversion lemmas -/

theorem openFile_ok {fs : FsState} {ino : Nat} {r w : Bool} {fh : Nat} {fs' : FsState}
    (h : openFile fs ino r w = .ok (fh, fs')) :
    (∃ a, lookupA ino fs.attrs = some a ∧ a.kind = .RegularFile) ∧
    fh = fs.nextFh ∧
    fs' = { fs with handles := insertA fs.nextFh ⟨ino, r, w⟩ fs.handles
                    nextFh := fs.nextFh + 1 } := by
  simp only [openFile] at h
  split at h
  · exact absurd h (by simp)
  · next a ha =>
    split at h
    · exact absurd h (by simp)
    · next hkind =>
      have hx := Except.ok.inj h
      obtain ⟨hfh, hfs⟩ := Prod.mk.inj hx
      exact ⟨⟨a, ha, not_not.mp hkind⟩, hfh.symm, hfs.symm⟩

theorem flush_ok {fs : FsState} {fh : Nat} {fs' : FsState}
    (h : flush fs fh = .ok fs') : fs' = fs := by
  simp only [flush] at h
  split at h
  · exact absurd h (by simp)
  · exact (Except.ok.inj h).symm

theorem release_ok {fs : FsState} {fh : Nat} {fs' : FsState}
    (h : release fs fh = .ok fs') :
    ∃ hdl, lookupA fh fs.handles = some hdl ∧
      (fs' = { fs with handles := eraseA fh fs.handles } ∨
       fs' = { fs with handles := eraseA fh fs.handles
                       attrs := eraseA hdl.ino fs.attrs
                       contents := eraseA hdl.ino fs.contents
                       dirs := eraseA hdl.ino fs.dirs }) := by
  simp only [release] at h
  split at h
  · exact absurd h (by simp)
  · next hdl hhdl =>
    refine ⟨hdl, hhdl, ?_⟩
    split at h
    · next a ha =>
      split at h
      · exact Or.inr (Except.ok.inj h).symm
      · exact Or.inl (Except.ok.inj h).symm
    · exact Or.inl (Except.ok.inj h).symm

theorem unlink_ok {fs : FsState} {parent : Nat} {name : String} {fs' : FsState}
    (h : unlink fs parent name = .ok fs') :
    ∃ pattr e, lookupA parent fs.attrs = some pattr ∧ pattr.kind = .Directory ∧
      findEntry name (entriesOf fs parent) = some e ∧ ¬ e.kind = .Directory ∧
      fs' = dropIno (setEntries fs parent (removeEntry name (entriesOf fs parent)))
              e.ino := by
  simp only [unlink] at h
  split at h
  · exact absurd h (by simp)
  · next pattr hp =>
    split at h
    · exact absurd h (by simp)
    · next hkind =>
      split at h
      · exact absurd h (by simp)
      · next e he =>
        split at h
        · exact absurd h (by simp)
        · next hek =>
          exact ⟨pattr, e, hp, not_not.mp hkind, he, hek, (Except.ok.inj h).symm⟩

theorem rename_ok {fs : FsState} {sp dp : Nat} {sn dn : String} {fs' : FsState}
    (h : rename fs sp sn dp dn = .ok fs') :
    ∃ e, findEntry sn (entriesOf fs sp) = some e ∧
      ((fs' = fs ∧ sp = dp ∧ sn = dn) ∨
       (fs' = renameApply fs sp sn dp dn e none ∧
        findEntry dn (entriesOf fs dp) = none) ∨
       (∃ de, findEntry dn (entriesOf fs dp) = some de ∧
          fs' = renameApply fs sp sn dp dn e (some de.ino))) := by
  simp only [rename] at h
  split at h
  · exact absurd h (by simp)
  · next spattr hsp =>
    split at h
    · exact absurd h (by simp)
    · next hspk =>
      split at h
      · exact absurd h (by simp)
      · next dpattr hdp =>
        split at h
        · exact absurd h (by simp)
        · next hdpk =>
          split at h
          · exact absurd h (by simp)
          · next e he =>
            refine ⟨e, he, ?_⟩
            split at h
            · next hid => exact Or.inl ⟨(Except.ok.inj h).symm, hid⟩
            · next hid =>
              split at h
              · next de hde =>
                split at h
                · split at h
                  · exact absurd h (by simp)
                  · split at h
                    · exact absurd h (by simp)
                    · exact Or.inr (Or.inr ⟨de, hde, (Except.ok.inj h).symm⟩)
                · split at h
                  · exact absurd h (by simp)
                  · exact Or.inr (Or.inr ⟨de, hde, (Except.ok.inj h).symm⟩)
              · next hde =>
                exact Or.inr (Or.inl ⟨(Except.ok.inj h).symm, hde⟩)

/-! ## Interleaved operations (spec §5)

The filesystem API calls are reified as a syntactic operation type so
that properties over "any interleaving of other operations" (spec §8
invariant 3) can be quantified over lists of operations. -/

/-- Modelled from the spec: one filesystem API call (§6). -/
inductive Op where
  | createOp (parent : Nat) (name : String) (attrT : FileAttr) (read write : Bool)
  | openOp (ino : Nat) (read write : Bool)
  | writeOp (ino off : Nat) (data : List Nat) (fh : Nat)
  | readOp (ino off len fh : Nat)
  | flushOp (fh : Nat)
  | releaseOp (fh : Nat)
  | unlinkOp (parent : Nat) (name : String)
  | renameOp (sp : Nat) (sn : String) (dp : Nat) (dn : String)
  | lookupOp (parent : Nat) (name : String)
  deriving Repr

/-- The state after one call; a failing call leaves the state
untouched (spec §7: partial failures roll back to the pre-state). -/
def stepState (op : Op) (s : FsState) : FsState :=
  match op with
  | .createOp p n t r w =>
    match create_nod s p n t r w with
    | .ok (_, s') => s'
    | .error _ => s
  | .openOp ino r w =>
    match openFile s ino r w with
    | .ok (_, s') => s'
    | .error _ => s
  | .writeOp ino off data fh =>
    match write_all s ino off data fh with
    | .ok s' => s'
    | .error _ => s
  | .readOp _ _ _ _ => s
  | .flushOp fh =>
    match flush s fh with
    | .ok s' => s'
    | .error _ => s
  | .releaseOp fh =>
    match release s fh with
    | .ok s' => s'
    | .error _ => s
  | .unlinkOp p n =>
    match unlink s p n with
    | .ok s' => s'
    | .error _ => s
  | .renameOp sp sn dp dn =>
    match rename s sp sn dp dn with
    | .ok s' => s'
    | .error _ => s
  | .lookupOp _ _ => s

/-- Run a list of calls left to right. -/
def runOps (ops : List Op) (s : FsState) : FsState :=
  match ops with
  | [] => s
  | op :: rest => runOps rest (stepState op s)

/-! ## Rename lookup lemmas and claim C5 -/

theorem setEntries_final_lookup (m : FsState) (sp dp : Nat) (sn dn : String)
    (ino0 : Nat) (k0 : FileType) (a0 : FileAttr) (pre : List DirEntry)
    (hne : ¬(sp = dp ∧ sn = dn))
    (hmdp : entriesOf m dp = pre ++ [⟨dn, ino0, k0⟩])
    (hpre : findEntry dn pre = none)
    (hma : lookupA ino0 m.attrs = some a0)
    (hisp : ino0 ≠ sp) :
    lookup (setEntries m sp (removeEntry sn (entriesOf m sp))) sp sn
      = .error .NotFound ∧
    lookup (setEntries m sp (removeEntry sn (entriesOf m sp))) dp dn = .ok a0 := by
  constructor
  · simp only [lookup, entriesOf_setEntries_self, findEntry_removeEntry_self]
  · have hfin : findEntry dn (entriesOf
        (setEntries m sp (removeEntry sn (entriesOf m sp))) dp)
        = some ⟨dn, ino0, k0⟩ := by
      by_cases hspdp : sp = dp
      · subst hspdp
        have hsndn : sn ≠ dn := fun h => hne ⟨rfl, h⟩
        rw [entriesOf_setEntries_self,
            findEntry_removeEntry_ne _ (Ne.symm hsndn), hmdp, findEntry_append, hpre]
        simp [findEntry]
      · rw [entriesOf_setEntries_ne _ _ (fun h => hspdp h.symm), hmdp,
            findEntry_append, hpre]
        simp [findEntry]
    simp only [lookup, hfin, attrs_setEntries_ne _ _ hisp, hma]

theorem renameApply_lookup (fs : FsState) (sp dp : Nat) (sn dn : String)
    (e : DirEntry) (replaced : Option Nat) (a0 : FileAttr)
    (hne : ¬(sp = dp ∧ sn = dn))
    (ha0 : lookupA e.ino fs.attrs = some a0)
    (hesp : e.ino ≠ sp) (hedp : e.ino ≠ dp)
    (hrep : ∀ rino, replaced = some rino → rino ≠ e.ino ∧ rino ≠ sp ∧ rino ≠ dp) :
    lookup (renameApply fs sp sn dp dn e replaced) sp sn = .error .NotFound ∧
    lookup (renameApply fs sp sn dp dn e replaced) dp dn = .ok a0 := by
  cases replaced with
  | none =>
    have happly : renameApply fs sp sn dp dn e none
        = setEntries
            (setEntries fs dp
              (removeEntry dn (entriesOf fs dp) ++ [⟨dn, e.ino, e.kind⟩]))
            sp
            (removeEntry sn (entriesOf
              (setEntries fs dp
                (removeEntry dn (entriesOf fs dp) ++ [⟨dn, e.ino, e.kind⟩])) sp)) := by
      rw [renameApply]
    rw [happly]
    generalize hM : setEntries fs dp
      (removeEntry dn (entriesOf fs dp) ++ [⟨dn, e.ino, e.kind⟩]) = M
    exact setEntries_final_lookup M sp dp sn dn e.ino e.kind a0
      (removeEntry dn (entriesOf fs dp)) hne
      (by rw [← hM]; exact entriesOf_setEntries_self _ _ _)
      (findEntry_removeEntry_self _ _)
      (by rw [← hM, attrs_setEntries_ne _ _ hedp]; exact ha0) hesp
  | some rino =>
    obtain ⟨hre, hrsp, hrdp⟩ := hrep rino rfl
    have happly : renameApply fs sp sn dp dn e (some rino)
        = setEntries
            (dropIno (setEntries fs dp
              (removeEntry dn (entriesOf fs dp) ++ [⟨dn, e.ino, e.kind⟩])) rino)
            sp
            (removeEntry sn (entriesOf
              (dropIno (setEntries fs dp
                (removeEntry dn (entriesOf fs dp) ++ [⟨dn, e.ino, e.kind⟩])) rino)
              sp)) := by
      rw [renameApply]
    rw [happly]
    generalize hM : dropIno (setEntries fs dp
      (removeEntry dn (entriesOf fs dp) ++ [⟨dn, e.ino, e.kind⟩])) rino = M
    exact setEntries_final_lookup M sp dp sn dn e.ino e.kind a0
      (removeEntry dn (entriesOf fs dp)) hne
      (by rw [← hM, dirs_dropIno_ne _ (Ne.symm hrdp)]
          exact entriesOf_setEntries_self _ _ _)
      (findEntry_removeEntry_self _ _)
      (by rw [← hM, attrs_dropIno_ne _ (Ne.symm hre), attrs_setEntries_ne _ _ hedp]
          exact ha0)
      hesp

/-- Claim C5 (amended): for every non-identity rename — source and
destination not the same `(parent, name)` pair, and the inodes involved
forming no cycle (source inode distinct from both parents and from a
replaced destination inode, a replaced destination inode distinct from
both parents) — success implies `lookup` of the source name returns
`NotFound` and `lookup` of the destination name returns the source
entry's inode; a rename that returns an error leaves the visible state
exactly the pre-rename state.  In the model the success case is a
single state update built destination-first (`renameApply`), so the
visible state is always fully-before or fully-after.  The identity
rename `(sp, sn) = (dp, dn)` is excluded: POSIX makes it a successful
no-op, on which the unamended claim fails (see the counterexample). -/
theorem C5_rename_atomicity (fs : FsState) (sp dp : Nat) (sn dn : String)
    (fs' : FsState) (e : DirEntry) (a0 : FileAttr)
    (hne : ¬(sp = dp ∧ sn = dn))
    (he : findEntry sn (entriesOf fs sp) = some e)
    (ha0 : lookupA e.ino fs.attrs = some a0) (ha0i : a0.ino = e.ino)
    (hesp : e.ino ≠ sp) (hedp : e.ino ≠ dp)
    (hdst : ∀ de, findEntry dn (entriesOf fs dp) = some de →
              de.ino ≠ e.ino ∧ de.ino ≠ sp ∧ de.ino ≠ dp)
    (hok : rename fs sp sn dp dn = .ok fs') :
    lookup fs' sp sn = .error .NotFound ∧
    (lookup fs' dp dn).map (fun x => x.ino) = .ok e.ino ∧
    (∀ (g : FsState) (err : FsError), rename g sp sn dp dn = .error err →
       stepState (.renameOp sp sn dp dn) g = g) := by
  obtain ⟨e', he', hcases⟩ := rename_ok hok
  have hee : e' = e := by
    rw [he] at he'
    exact (Option.some.inj he').symm
  subst hee
  have hkeep : ∀ (g : FsState) (err : FsError), rename g sp sn dp dn = .error err →
      stepState (.renameOp sp sn dp dn) g = g := by
    intro g err hg
    simp [stepState, hg]
  rcases hcases with ⟨_, hid⟩ | ⟨hfs, hdn⟩ | ⟨de, hde, hfs⟩
  · exact absurd hid hne
  · subst hfs
    obtain ⟨h1, h2⟩ := renameApply_lookup fs sp dp sn dn e' none a0 hne ha0 hesp hedp
      (fun rino hr => by cases hr)
    exact ⟨h1, by rw [h2]; simp [Except.map, ha0i], hkeep⟩
  · subst hfs
    obtain ⟨h1, h2⟩ := renameApply_lookup fs sp dp sn dn e' (some de.ino) a0 hne ha0
      hesp hedp (fun rino hr => by cases hr; exact hdst de hde)
    exact ⟨h1, by rw [h2]; simp [Except.map, ha0i], hkeep⟩

/-- Claim C5 counterexample: renaming an entry onto itself —
`rename(1, "a", 1, "a")` — succeeds as the POSIX no-op, yet
`lookup(1, "a")` still resolves, so the claim as stated ("on success
lookup of the source name returns NotFound", for every rename) is false
at this input. -/
theorem C5_rename_atomicity_counterexample :
    rename (createResultState fs0 1 "a" fileTpl false true) 1 "a" 1 "a"
      = .ok (createResultState fs0 1 "a" fileTpl false true) ∧
    lookup (createResultState fs0 1 "a" fileTpl false true) 1 "a"
      = .ok ({ fileTpl with ino := 2, size := 0 }) := by
  constructor
  · rfl
  · rfl

/-- Claim C5 witness: the S3 scenario — create `(1, "a")`, rename it to
`(1, "b")`. -/
theorem C5_rename_atomicity_witness :
    lookup (renameApply (createResultState fs0 1 "a" fileTpl false true) 1 "a" 1 "b"
        { name := "a", ino := 2, kind := .RegularFile } none) 1 "a"
      = .error .NotFound ∧
    (lookup (renameApply (createResultState fs0 1 "a" fileTpl false true) 1 "a" 1 "b"
        { name := "a", ino := 2, kind := .RegularFile } none) 1 "b").map
      (fun x => x.ino) = .ok 2 ∧
    (∀ (g : FsState) (err : FsError), rename g 1 "a" 1 "b" = .error err →
       stepState (.renameOp 1 "a" 1 "b") g = g) :=
  C5_rename_atomicity (createResultState fs0 1 "a" fileTpl false true) 1 1 "a" "b"
    (renameApply (createResultState fs0 1 "a" fileTpl false true) 1 "a" 1 "b"
      { name := "a", ino := 2, kind := .RegularFile } none)
    { name := "a", ino := 2, kind := .RegularFile }
    { fileTpl with ino := 2, size := 0 }
    (by decide) (by decide) (by decide) (by decide) (by decide) (by decide)
    (by
      intro de hde
      rw [(by decide : findEntry "b"
        (entriesOf (createResultState fs0 1 "a" fileTpl false true) 1)
          = (none : Option DirEntry))] at hde
      cases hde)
    rfl

/-! ## Disjointness and the frame property (claim C1 machinery)

An interleaved call is *disjoint* from inode `I` when it does not
write inode `I`'s attribute record or content stream: it targets other
inodes, releases handles of other inodes, and removes entries of other
inodes.  (Spec §5: operations on disjoint inodes may run in any order;
§8 invariant 3 quantifies over interleavings of such operations.) -/

/-- Does this call avoid touching inode `I`'s attributes and content? -/
def opDisjoint (s : FsState) (op : Op) (I : Nat) : Bool :=
  match op with
  | .createOp p _ _ _ _ => p != I
  | .openOp _ _ _ => true
  | .writeOp ino _ _ _ => ino != I
  | .readOp _ _ _ _ => true
  | .flushOp _ => true
  | .releaseOp fh =>
    match lookupA fh s.handles with
    | some h => h.ino != I
    | none => true
  | .unlinkOp p n =>
    p != I &&
      (match findEntry n (entriesOf s p) with
       | some e => e.ino != I
       | none => true)
  | .renameOp sp _ dp dn =>
    sp != I && dp != I &&
      (match findEntry dn (entriesOf s dp) with
       | some de => de.ino != I
       | none => true)
  | .lookupOp _ _ => true

/-- Every call of the run is disjoint from `I`, each judged at the
state it actually runs in. -/
def DisjointRun (s : FsState) : List Op → Nat → Bool
  | [], _ => true
  | op :: rest, I => opDisjoint s op I && DisjointRun (stepState op s) rest I

theorem attrsBound_setEntries {fs : FsState} (d : Nat) (es : List DirEntry)
    (hb : attrsBound fs) : attrsBound (setEntries fs d es) := by
  intro p hp
  simp only [setEntries] at hp ⊢
  cases hl : lookupA d fs.attrs with
  | none =>
    rw [hl] at hp
    exact hb p hp
  | some a =>
    rw [hl] at hp
    rcases mem_insertA hp with hpe | hmem
    · subst hpe
      simpa using hb _ (lookupA_mem hl)
    · exact hb p hmem

theorem attrsBound_dropIno {fs : FsState} (ino : Nat) (hb : attrsBound fs) :
    attrsBound (dropIno fs ino) := by
  intro p hp
  rw [nextIno_dropIno]
  simp only [dropIno] at hp
  by_cases hh : anyHandle fs.handles ino
  · simp only [if_pos hh] at hp
    cases hl : lookupA ino fs.attrs with
    | none =>
      rw [hl] at hp
      exact hb p hp
    | some a =>
      rw [hl] at hp
      rcases mem_insertA hp with hpe | hmem
      · subst hpe
        simpa using hb _ (lookupA_mem hl)
      · exact hb p hmem
  · simp only [if_neg hh] at hp
    exact hb p (mem_eraseA hp)

/-- Every call preserves the allocator bound on stored inode numbers. -/
theorem attrsBound_step (op : Op) (s : FsState) (hb : attrsBound s) :
    attrsBound (stepState op s) := by
  cases op with
  | createOp p n t r w =>
    cases hc : create_nod s p n t r w with
    | error e => simpa [stepState, hc] using hb
    | ok v =>
      obtain ⟨⟨fh, a⟩, s'⟩ := v
      obtain ⟨⟨pattr, hp, hkind⟩, hfind, hfh, ha, hfs⟩ := create_nod_ok hc
      simp only [stepState, hc]
      subst hfs
      rw [createResultState]
      apply attrsBound_setEntries
      intro q hq
      rcases mem_insertA hq with hqe | hmem
      · subst hqe
        exact Nat.lt_succ_self _
      · exact Nat.lt_succ_of_lt (hb q hmem)
  | openOp ino r w =>
    cases hc : openFile s ino r w with
    | error e => simpa [stepState, hc] using hb
    | ok v =>
      obtain ⟨fh, s'⟩ := v
      obtain ⟨_, hfh, hfs⟩ := openFile_ok hc
      simp only [stepState, hc]
      subst hfs
      exact hb
  | writeOp ino off data fh =>
    cases hc : write_all s ino off data fh with
    | error e => simpa [stepState, hc] using hb
    | ok s' =>
      obtain ⟨hdl, a, c, hhdl, hino, hcw, ha, hkind, hcont, hfs⟩ := write_all_ok hc
      simp only [stepState, hc]
      subst hfs
      intro q hq
      rcases mem_insertA hq with hqe | hmem
      · subst hqe
        simpa using hb _ (lookupA_mem ha)
      · exact hb q hmem
  | readOp ino off len fh => simpa [stepState] using hb
  | flushOp fh =>
    cases hc : flush s fh with
    | error e => simpa [stepState, hc] using hb
    | ok s' =>
      have hfs := flush_ok hc
      simp only [stepState, hc]
      subst hfs
      exact hb
  | releaseOp fh =>
    cases hc : release s fh with
    | error e => simpa [stepState, hc] using hb
    | ok s' =>
      obtain ⟨hdl, hhdl, hcase⟩ := release_ok hc
      simp only [stepState, hc]
      rcases hcase with hfs | hfs
      · subst hfs
        exact hb
      · subst hfs
        intro q hq
        exact hb q (mem_eraseA hq)
  | unlinkOp p n =>
    cases hc : unlink s p n with
    | error e => simpa [stepState, hc] using hb
    | ok s' =>
      obtain ⟨pattr, e, hp, hkind, he, hek, hfs⟩ := unlink_ok hc
      simp only [stepState, hc]
      subst hfs
      exact attrsBound_dropIno _ (attrsBound_setEntries _ _ hb)
  | renameOp sp sn dp dn =>
    cases hc : rename s sp sn dp dn with
    | error e => simpa [stepState, hc] using hb
    | ok s' =>
      obtain ⟨e, he, hcase⟩ := rename_ok hc
      simp only [stepState, hc]
      rcases hcase with ⟨hfs, _⟩ | ⟨hfs, _⟩ | ⟨de, hde, hfs⟩
      · subst hfs
        exact hb
      · subst hfs
        rw [renameApply]
        exact attrsBound_setEntries _ _ (attrsBound_setEntries _ _ hb)
      · subst hfs
        rw [renameApply]
        exact attrsBound_setEntries _ _
          (attrsBound_dropIno _ (attrsBound_setEntries _ _ hb))
  | lookupOp p n => simpa [stepState] using hb

/-- A disjoint call leaves inode `I`'s attribute record and content
stream untouched. -/
theorem step_frame (op : Op) (s : FsState) (I : Nat) (aI : FileAttr)
    (hb : attrsBound s) (hI : lookupA I s.attrs = some aI)
    (hd : opDisjoint s op I = true) :
    lookupA I (stepState op s).attrs = lookupA I s.attrs ∧
    lookupA I (stepState op s).contents = lookupA I s.contents := by
  cases op with
  | createOp p n t r w =>
    have hpI : p ≠ I := by simpa [opDisjoint] using hd
    cases hc : create_nod s p n t r w with
    | error e => simp [stepState, hc]
    | ok v =>
      obtain ⟨⟨fh, a⟩, s'⟩ := v
      obtain ⟨⟨pattr, hp, hkind⟩, hfind, hfh, ha, hfs⟩ := create_nod_ok hc
      simp only [stepState, hc]
      subst hfs
      have hIne : I ≠ s.nextIno := Nat.ne_of_lt (hb _ (lookupA_mem hI))
      rw [createResultState]
      constructor
      · rw [attrs_setEntries_ne _ _ (Ne.symm hpI)]
        exact lookupA_insertA_ne _ _ hIne
      · rw [contents_setEntries]
        by_cases hk : t.kind = .RegularFile
        · simp only [hk, if_pos rfl]
          exact lookupA_insertA_ne _ _ hIne
        · simp only [if_neg hk]
  | openOp ino r w =>
    cases hc : openFile s ino r w with
    | error e => simp [stepState, hc]
    | ok v =>
      obtain ⟨fh, s'⟩ := v
      obtain ⟨_, hfh, hfs⟩ := openFile_ok hc
      simp only [stepState, hc]
      subst hfs
      exact ⟨rfl, rfl⟩
  | writeOp ino off data fh =>
    have hinoI : ino ≠ I := by simpa [opDisjoint] using hd
    cases hc : write_all s ino off data fh with
    | error e => simp [stepState, hc]
    | ok s' =>
      obtain ⟨hdl, a, c, hhdl, hino, hcw, ha, hkind, hcont, hfs⟩ := write_all_ok hc
      simp only [stepState, hc]
      subst hfs
      exact ⟨lookupA_insertA_ne _ _ (Ne.symm hinoI),
             lookupA_insertA_ne _ _ (Ne.symm hinoI)⟩
  | readOp ino off len fh => exact ⟨rfl, rfl⟩
  | flushOp fh =>
    cases hc : flush s fh with
    | error e => simp [stepState, hc]
    | ok s' =>
      have hfs := flush_ok hc
      simp only [stepState, hc]
      subst hfs
      exact ⟨rfl, rfl⟩
  | releaseOp fh =>
    cases hc : release s fh with
    | error e => simp [stepState, hc]
    | ok s' =>
      obtain ⟨hdl, hhdl, hcase⟩ := release_ok hc
      have hdio : hdl.ino ≠ I := by
        simp only [opDisjoint, hhdl] at hd
        simpa using hd
      simp only [stepState, hc]
      rcases hcase with hfs | hfs <;> subst hfs
      · exact ⟨rfl, rfl⟩
      · exact ⟨lookupA_eraseA_ne _ (Ne.symm hdio),
               lookupA_eraseA_ne _ (Ne.symm hdio)⟩
  | unlinkOp p n =>
    cases hc : unlink s p n with
    | error e => simp [stepState, hc]
    | ok s' =>
      obtain ⟨pattr, e, hp, hkind, he, hek, hfs⟩ := unlink_ok hc
      simp only [opDisjoint, he, Bool.and_eq_true] at hd
      obtain ⟨hpI, heI⟩ := hd
      have hpI' : I ≠ p := Ne.symm (by simpa using hpI)
      have heI' : I ≠ e.ino := Ne.symm (by simpa using heI)
      simp only [stepState, hc]
      subst hfs
      constructor
      · rw [attrs_dropIno_ne _ heI', attrs_setEntries_ne _ _ hpI']
      · rw [contents_dropIno_ne _ heI', contents_setEntries]
  | renameOp sp sn dp dn =>
    cases hc : rename s sp sn dp dn with
    | error e => simp [stepState, hc]
    | ok s' =>
      obtain ⟨e, he, hcase⟩ := rename_ok hc
      simp only [opDisjoint, Bool.and_eq_true] at hd
      obtain ⟨⟨hspI, hdpI⟩, hguard⟩ := hd
      have hspI' : I ≠ sp := Ne.symm (by simpa using hspI)
      have hdpI' : I ≠ dp := Ne.symm (by simpa using hdpI)
      simp only [stepState, hc]
      rcases hcase with ⟨hfs, _⟩ | ⟨hfs, _⟩ | ⟨de, hde, hfs⟩ <;> subst hfs
      · exact ⟨rfl, rfl⟩
      · rw [renameApply]
        constructor
        · rw [attrs_setEntries_ne _ _ hspI', attrs_setEntries_ne _ _ hdpI']
        · rw [contents_setEntries, contents_setEntries]
      · have hdeI : I ≠ de.ino := by
          rw [hde] at hguard
          exact Ne.symm (by simpa using hguard)
        rw [renameApply]
        constructor
        · rw [attrs_setEntries_ne _ _ hspI', attrs_dropIno_ne _ hdeI,
              attrs_setEntries_ne _ _ hdpI']
        · rw [contents_setEntries, contents_dropIno_ne _ hdeI, contents_setEntries]
  | lookupOp p n => exact ⟨rfl, rfl⟩

/-- A whole disjoint run leaves inode `I`'s attribute record and
content stream untouched and preserves the allocator bound. -/
theorem runOps_frame (ops : List Op) (s : FsState) (I : Nat) (aI : FileAttr)
    (hb : attrsBound s) (hI : lookupA I s.attrs = some aI)
    (hrun : DisjointRun s ops I = true) :
    lookupA I (runOps ops s).attrs = lookupA I s.attrs ∧
    lookupA I (runOps ops s).contents = lookupA I s.contents := by
  induction ops generalizing s with
  | nil => exact ⟨rfl, rfl⟩
  | cons op rest ih =>
    simp only [DisjointRun, Bool.and_eq_true] at hrun
    obtain ⟨hop, hrest⟩ := hrun
    obtain ⟨ha, hcont⟩ := step_frame op s I aI hb hI hop
    have hb1 : attrsBound (stepState op s) := attrsBound_step op s hb
    have hI1 : lookupA I (stepState op s).attrs = some aI := by rw [ha, hI]
    obtain ⟨h1, h2⟩ := ih (stepState op s) hb1 hI1 hrest
    constructor
    · show lookupA I (runOps rest (stepState op s)).attrs = _
      rw [h1, ha]
    · show lookupA I (runOps rest (stepState op s)).contents = _
      rw [h2, hcont]

/-! ## Claim C1 -/

/-- Claim C1: write/read round-trip — after `write_all(I, off, B, fh)`
followed by `flush(fh)`, and then any interleaving of operations
disjoint from inode `I`, opening `I` for reading and issuing
`read(I, off, len(B))` returns exactly `B`. -/
theorem C1_write_read_round_trip (s : FsState) (I off : Nat) (B : List Nat)
    (fh : Nat) (s1 s2 : FsState) (ops : List Op) (fh2 : Nat) (s4 : FsState)
    (hb : attrsBound s)
    (hw : write_all s I off B fh = .ok s1)
    (hf : flush s1 fh = .ok s2)
    (hrun : DisjointRun s2 ops I = true)
    (hopen : openFile (runOps ops s2) I true false = .ok (fh2, s4)) :
    read s4 I off B.length fh2 = .ok B := by
  obtain ⟨hdl, a, c, hhdl, hino, hcw, ha, hkind, hcont, hfs1⟩ := write_all_ok hw
  have hfs2 : s2 = s1 := flush_ok hf
  subst hfs2
  have hattr1 : lookupA I s2.attrs
      = some { a with size := (writeContent c off B).length } := by
    rw [hfs1]
    exact lookupA_insertA_self _ _ _
  have hcont1 : lookupA I s2.contents = some (writeContent c off B) := by
    rw [hfs1]
    exact lookupA_insertA_self _ _ _
  have hb1 : attrsBound s2 := by
    rw [hfs1]
    intro q hq
    rcases mem_insertA hq with hqe | hmem
    · subst hqe
      simpa using hb _ (lookupA_mem ha)
    · exact hb q hmem
  obtain ⟨hA, hC⟩ := runOps_frame ops s2 I _ hb1 hattr1 hrun
  obtain ⟨⟨a3, ha3, hk3⟩, hfh2, hs4⟩ := openFile_ok hopen
  subst hs4
  subst hfh2
  have hh4 : lookupA (runOps ops s2).nextFh
      (insertA (runOps ops s2).nextFh
        (⟨I, true, false⟩ : Handle) (runOps ops s2).handles)
      = some ⟨I, true, false⟩ := lookupA_insertA_self _ _ _
  simp only [read, hh4]
  rw [hA, hattr1, hC, hcont1]
  simp [writeContent_readback]

/-- S1 state: `"file1"` created under the root with a write handle. -/
def c1state : FsState := createResultState fs0 1 "file1" fileTpl false true

/-- The bytes of `"Hello, world!"`. -/
def c1hello : List Nat := [72, 101, 108, 108, 111, 44, 32, 119, 111, 114, 108, 100, 33]

/-- State after `write_all(2, 0, "Hello, world!", 1)`. -/
def c1s1 : FsState := (write_all c1state 2 0 c1hello 1).toOption.getD c1state

/-- State after `flush(1)`. -/
def c1s2 : FsState := (flush c1s1 1).toOption.getD c1s1

/-- An interleaved operation on a disjoint inode: create `"file2"`. -/
def c1ops : List Op := [.createOp 1 "file2" fileTpl false true]

/-- `open(2, read, no-write)` after the interleaved operations. -/
def c1opened : Nat × FsState :=
  (openFile (runOps c1ops c1s2) 2 true false).toOption.getD (0, runOps c1ops c1s2)

/-- Claim C1 witness: the S1 scenario — write `"Hello, world!"` at
offset 0, flush, interleave a disjoint create, reopen for reading, and
read the 13 bytes back. -/
theorem C1_write_read_round_trip_witness :
    read c1opened.2 2 0 c1hello.length c1opened.1 = .ok c1hello :=
  C1_write_read_round_trip c1state 2 0 c1hello 1 c1s1 c1s2 c1ops
    c1opened.1 c1opened.2
    (by unfold attrsBound; decide) rfl rfl (by decide) rfl

end Rencfs
